import Mathlib

/-!
Verification of the AMFI NAV-file parser (`src/amfi/nav.py`).

The development shallowly embeds the Python module: pure string helpers
(`str.split`, substring containment, `s[:-1]`) are modelled as executable
functions on `List Char`, Python dicts as insertion-ordered association
lists, and the nested `while`/`for` loops of `parse_nav_file_lines` as a
fuel-indexed interpreter over an explicit cursor state.  Python exceptions
(`KeyError`, `TypeError` from a dataclass call with missing arguments, and
`IndexError`) are modelled by the `NavError` type.  A fueled run that
returns `.ok` or `.err` corresponds to a real, finite execution of the
Python code; `.fuelOut` only signals that the given fuel bound was reached.
-/

set_option synthInstance.maxSize 512

namespace AmfiNav

/-! ## Python string primitives -/

/-- `listStartsWith pat l`: does `l` start with `pat`?  (Model of the
prefix test underlying Python's `in` operator for strings.) -/
def listStartsWith : List Char → List Char → Bool
  | [], _ => true
  | _ :: _, [] => false
  | a :: as, b :: bs => a == b && listStartsWith as bs

/-- `listOccursIn pat l`: does `pat` occur contiguously inside `l`?  -/
def listOccursIn (pat : List Char) : List Char → Bool
  | [] => listStartsWith pat []
  | c :: rest => listStartsWith pat (c :: rest) || listOccursIn pat rest

/-- Model of Python's substring test `pat in hay`. -/
def strContains (hay pat : String) : Bool :=
  listOccursIn pat.toList hay.toList

/-- Split a character list at every occurrence of the single character
`sep`.  Model of Python `str.split(sep)` for a one-character separator
(`';'` and `'('` in the source). -/
def splitChar (sep : Char) : List Char → List (List Char)
  | [] => [[]]
  | c :: rest =>
    if c = sep then [] :: splitChar sep rest
    else
      match splitChar sep rest with
      | [] => [[c]]
      | l :: ls => (c :: l) :: ls

/-- Split a character list at every occurrence of the two-character
separator `'\r'`, `'\n'`.  Model of Python `str.split('\r\n')`,
the split on `LINE_BREAK` performed by `parse_nav_file_lines`. -/
def splitCRLF : List Char → List (List Char)
  | '\r' :: '\n' :: rest => [] :: splitCRLF rest
  | c :: rest =>
    match splitCRLF rest with
    | [] => [[c]]
    | l :: ls => (c :: l) :: ls
  | [] => [[]]

/-- Python `s.split(sep)` for a one-character `sep`, on `String`. -/
def pySplitOn (sep : Char) (s : String) : List String :=
  (splitChar sep s.toList).map (fun cs => ⟨cs⟩)

/-- Python `raw_data.split(LINE_BREAK)` with `LINE_BREAK = '\r\n'`. -/
def pySplitLines (s : String) : List String :=
  (splitCRLF s.toList).map (fun cs => ⟨cs⟩)

/-- Python `s[:-1]`: drop the final character (identity on `""`). -/
def pyDropLast (s : String) : String := ⟨s.toList.dropLast⟩

/-! ## Data model (`Fund`, module constants) -/

/-- The `Fund` dataclass of `src/amfi/nav.py`, field for field. -/
structure Fund where
  SchemeCode : String
  SchemeName : String
  ISINDivPayoutGrowth : String
  ISINDivReinvestment : String
  NAV : String
  Date : String
deriving DecidableEq, Repr

/-- `LINE_BREAK` constant of the module. -/
def LINE_BREAK : String := "\r\n"

/-- `EMPTY_LINE` constant of `parse_nav_file_lines`: the blank separator
is a single space, not the empty string. -/
def EMPTY_LINE : String := " "

/-- `DATACLASS_AMFI_NAMES_TRANSFORMS`: report column label to `Fund`
field name, as an insertion-ordered association list. -/
def DATACLASS_AMFI_NAMES_TRANSFORMS : List (String × String) :=
  [("Scheme Code", "SchemeCode"),
   ("ISIN Div Payout/ ISIN Growth", "ISINDivPayoutGrowth"),
   ("ISIN Div Reinvestment", "ISINDivReinvestment"),
   ("Scheme Name", "SchemeName"),
   ("Net Asset Value", "NAV"),
   ("Date", "Date")]

/-- `SCHEME_TYPE_CLASSES` constant of the module. -/
def SCHEME_TYPE_CLASSES : List String :=
  ["Close Ended", "Open Ended", "Interval Fund Schemes"]

/-- Python exceptions that the module can raise: `KeyError` (unknown
column label in the transforms table), `TypeError` (the `Fund(**d)` call
with a missing field), `IndexError` (list index out of range). -/
inductive NavError where
  | keyError (label : String)
  | typeError
  | indexError
deriving DecidableEq, Repr

/-! ## Python dicts as insertion-ordered association lists -/

/-- Lookup in a Python dict (first matching key; keys of dicts built by
the module are pairwise distinct). -/
def dictGet {α : Type} : List (String × α) → String → Option α
  | [], _ => none
  | p :: rest, k => if p.1 = k then some p.2 else dictGet rest k

/-- Python `k in d`. -/
def dictMem {α : Type} (d : List (String × α)) (k : String) : Bool :=
  (dictGet d k).isSome

/-- Python `d[k] = v`: overwrite in place if present, else append. -/
def dictInsert {α : Type} (d : List (String × α)) (k : String) (v : α) :
    List (String × α) :=
  if dictMem d k then d.map (fun p => if p.1 = k then (p.1, v) else p)
  else d ++ [(k, v)]

/-- The `if k not in d: d[k] = v` idiom of `parse_nav_file_lines`. -/
def ensureKey {α : Type} (d : List (String × α)) (k : String) (v : α) :
    List (String × α) :=
  if dictMem d k then d else d ++ [(k, v)]

/-- Update the value stored under `k`, leaving everything else unchanged
(model of an in-place mutation of `d[k]`; no-op when `k` is absent, a
situation the parser never produces because it ensures the key first). -/
def dictModify {α : Type} (d : List (String × α)) (k : String) (f : α → α) :
    List (String × α) :=
  d.map (fun p => if p.1 = k then (p.1, f p.2) else p)

/-! ## The record decoder `_parse_fund_string` -/

/-- The dict comprehension
`{TRANSFORMS[key]: val for key, val in zip(schema, fund_info_raw)}`:
pairs are inserted left to right, and an unknown label raises `KeyError`
at the first offending pair. -/
def buildFundDict (acc : List (String × String)) :
    List (String × String) → Except NavError (List (String × String))
  | [] => .ok acc
  | (k, v) :: rest =>
    match dictGet DATACLASS_AMFI_NAMES_TRANSFORMS k with
    | none => .error (.keyError k)
    | some k' => buildFundDict (dictInsert acc k' v) rest

/-- The `Fund(**fund_dict)` call: succeeds exactly when every field name
is a key of the dict (raising `TypeError` for a missing argument
otherwise; no surplus key can occur, since all values of the transforms
table are field names). -/
def mkFund (d : List (String × String)) : Except NavError Fund :=
  match dictGet d "SchemeCode", dictGet d "SchemeName",
        dictGet d "ISINDivPayoutGrowth", dictGet d "ISINDivReinvestment",
        dictGet d "NAV", dictGet d "Date" with
  | some c, some n, some p, some r, some v, some dt =>
    .ok { SchemeCode := c, SchemeName := n, ISINDivPayoutGrowth := p,
          ISINDivReinvestment := r, NAV := v, Date := dt }
  | _, _, _, _, _, _ => .error .typeError

/-- `_parse_fund_string` on an already-split token list. -/
def parseFundTokens (schema : List String) (tokens : List String) :
    Except NavError Fund :=
  match buildFundDict [] (schema.zip tokens) with
  | .error e => .error e
  | .ok d => mkFund d

/-- `_parse_fund_string(schema, fund_str)`: split on `';'`, zip with the
schema, build the dict, call `Fund(**d)`. -/
def parse_fund_string (schema : List String) (fund_str : String) :
    Except NavError Fund :=
  parseFundTokens schema (pySplitOn ';' fund_str)

/-! ## The hierarchical parser `parse_nav_file_lines` -/

/-- The nested result dict
`{scheme_type: {scheme_sub_type: {fund_house: [Fund, ...]}}}`. -/
abbrev Hierarchy := List (String × List (String × List (String × List Fund)))

/-- Cursor state of the line-walking loops: the (immutable) line list,
the shared `curr_index`, and the accumulated `parsed_funds`. -/
structure PState where
  lines : List String
  idx : Nat
  funds : Hierarchy
deriving Repr

instance : DecidableEq PState := fun a b => by
  cases a; cases b
  exact decidable_of_iff _ (iff_of_eq (PState.mk.injEq _ _ _ _ _ _)).symm

/-- Result of a fueled run. -/
inductive PRes (α : Type) where
  | ok (a : α)
  | err (e : NavError)
  | fuelOut
deriving DecidableEq, Repr

/-- `curr_line()`: `nav_lines[curr_index]`, `IndexError` out of range. -/
def currLine (st : PState) : Except NavError String :=
  match st.lines.get? st.idx with
  | some s => .ok s
  | none => .error .indexError

/-- `next_line()`: increment `curr_index`, then read (and bounds-check)
`nav_lines[curr_index]`. -/
def nextLine (st : PState) : Except NavError PState :=
  let st' : PState := { st with idx := st.idx + 1 }
  match st'.lines.get? st'.idx with
  | some _ => .ok st'
  | none => .error .indexError

/-- `parsed_funds[t] = dict()` guarded by `if t not in parsed_funds`. -/
def ensureType (H : Hierarchy) (t : String) : Hierarchy :=
  ensureKey H t []

/-- `parsed_funds[t][s] = dict()` guarded by membership. -/
def ensureSub (H : Hierarchy) (t s : String) : Hierarchy :=
  dictModify H t (fun d2 => ensureKey d2 s [])

/-- `parsed_funds[t][s][h] = list()` guarded by membership. -/
def ensureOrg (H : Hierarchy) (t s h : String) : Hierarchy :=
  dictModify H t (fun d2 => dictModify d2 s (fun d3 => ensureKey d3 h []))

/-- `parsed_funds[t][s][h].append(fd)` (the parser only appends to a
bucket it has just ensured, so the key path is always present). -/
def appendFund (H : Hierarchy) (t s h : String) (fd : Fund) : Hierarchy :=
  dictModify H t (fun d2 => dictModify d2 s (fun d3 =>
    dictModify d3 h (fun l => l ++ [fd])))

/-- The innermost loop `while curr_line() != EMPTY_LINE`: decode every
non-empty line as a `Fund` and append it; break (without decoding) on the
final line of the file. -/
def recordLoop (schema : List String) (t s h : String) :
    Nat → PState → PRes PState
  | 0, _ => .fuelOut
  | fuel + 1, st =>
    match st.lines.get? st.idx with
    | none => .err .indexError
    | some line =>
      if line = EMPTY_LINE then .ok st
      else if st.idx = st.lines.length - 1 then .ok st
      else
        let step : Except NavError PState :=
          if line = "" then .ok st
          else
            match parse_fund_string schema line with
            | .ok fd => .ok { st with funds := appendFund st.funds t s h fd }
            | .error e => .error e
        match step with
        | .error e => .err e
        | .ok st2 =>
          match nextLine st2 with
          | .error e => .err e
          | .ok st3 => recordLoop schema t s h fuel st3

/-- The middle loop
`while all(c not in curr_line() for c in SCHEME_TYPE_CLASSES)`: read a
fund-house header, ensure its bucket, skip the blank line, run the record
loop, then either break on the final line or skip the separator and
continue. -/
def orgLoop (schema : List String) (t s : String) :
    Nat → PState → PRes PState
  | 0, _ => .fuelOut
  | fuel + 1, st =>
    match st.lines.get? st.idx with
    | none => .err .indexError
    | some line =>
      if SCHEME_TYPE_CLASSES.all (fun c => !(strContains line c)) then
        let st0 : PState := { st with funds := ensureOrg st.funds t s line }
        match nextLine st0 with
        | .error e => .err e
        | .ok st1 =>
          match nextLine st1 with
          | .error e => .err e
          | .ok st2 =>
            match recordLoop schema t s line fuel st2 with
            | .fuelOut => .fuelOut
            | .err e => .err e
            | .ok st3 =>
              if st3.idx = st3.lines.length - 1 then .ok st3
              else
                match nextLine st3 with
                | .error e => .err e
                | .ok st4 => orgLoop schema t s fuel st4
      else .ok st

/-- The `for scheme_class in SCHEME_TYPE_CLASSES` loop: for each class
whose marker occurs in the current line, split the line on `'('`
(`scheme_type_str[1]` raises `IndexError` when there is no parenthesis),
strip the final character of the sub-type, ensure both keys, skip the
blank line and run the organisation loop. -/
def forClasses (schema : List String) (fuel : Nat) :
    List String → PState → PRes PState
  | [], st => .ok st
  | c :: cs, st =>
    match st.lines.get? st.idx with
    | none => .err .indexError
    | some line =>
      if strContains line c then
        let parts := pySplitOn '(' line
        let scheme_type := parts.headI
        match parts.get? 1 with
        | none => .err .indexError
        | some second =>
          let scheme_sub_type := pyDropLast second
          let funds2 :=
            ensureSub (ensureType st.funds scheme_type) scheme_type scheme_sub_type
          let st0 : PState := { st with funds := funds2 }
          match nextLine st0 with
          | .error e => .err e
          | .ok st1 =>
            match nextLine st1 with
            | .error e => .err e
            | .ok st2 =>
              match orgLoop schema scheme_type scheme_sub_type fuel st2 with
              | .fuelOut => .fuelOut
              | .err e => .err e
              | .ok st3 => forClasses schema fuel cs st3
      else forClasses schema fuel cs st

/-- The outer `while curr_index < len(nav_lines)` loop, with its
`if curr_index == len(nav_lines) - 1: break` guard. -/
def outerLoop (schema : List String) : Nat → PState → PRes Hierarchy
  | 0, _ => .fuelOut
  | fuel + 1, st =>
    if st.idx < st.lines.length then
      if st.idx = st.lines.length - 1 then .ok st.funds
      else
        match forClasses schema fuel SCHEME_TYPE_CLASSES st with
        | .ok st' => outerLoop schema fuel st'
        | .err e => .err e
        | .fuelOut => .fuelOut
    else .ok st.funds

/-- `parse_nav_file_lines` on the already-split line list: read the
schema from line 0, advance the cursor twice (each advance reads and
bounds-checks the new line), then run the outer loop from index 2 with an
empty accumulator. -/
def parseLines (fuel : Nat) (nav_lines : List String) : PRes Hierarchy :=
  let schema := pySplitOn ';' nav_lines.headI
  match nav_lines.get? 1 with
  | none => .err .indexError
  | some _ =>
    match nav_lines.get? 2 with
    | none => .err .indexError
    | some _ => outerLoop schema fuel ⟨nav_lines, 2, []⟩

/-- `parse_nav_file_lines(raw_data)`: split on `LINE_BREAK`, then walk
the lines. -/
def parse_nav_file_lines (fuel : Nat) (raw_data : String) : PRes Hierarchy :=
  parseLines fuel (pySplitLines raw_data)

/-! ## Concrete inputs used by the scenario claims -/

/-- The header line of the documented report format. -/
def canonicalHeader : String :=
  "Scheme Code;ISIN Div Payout/ ISIN Growth;ISIN Div Reinvestment;Scheme Name;Net Asset Value;Date"

/-- The six column labels, in header order. -/
def canonicalLabels : List String :=
  ["Scheme Code", "ISIN Div Payout/ ISIN Growth", "ISIN Div Reinvestment",
   "Scheme Name", "Net Asset Value", "Date"]

/-- The six `Fund` field names (the values of the transforms table). -/
def fundFieldNames : List String :=
  ["SchemeCode", "SchemeName", "ISINDivPayoutGrowth",
   "ISINDivReinvestment", "NAV", "Date"]

/-- Projection of a `Fund` by field name (used to state positional
field-alignment properties). -/
def fundField (fd : Fund) (n : String) : Option String :=
  if n = "SchemeCode" then some fd.SchemeCode
  else if n = "SchemeName" then some fd.SchemeName
  else if n = "ISINDivPayoutGrowth" then some fd.ISINDivPayoutGrowth
  else if n = "ISINDivReinvestment" then some fd.ISINDivReinvestment
  else if n = "NAV" then some fd.NAV
  else if n = "Date" then some fd.Date
  else none

/-- The scenario input of the spec: header, blank, group header, blank,
organisation, blank, data line, single-space blank, and a final
empty-string line, joined by `"\r\n"` (so the raw text ends with the
line terminator). -/
def c1Input : String :=
  canonicalHeader ++
    "\r\n \r\nOpen Ended Schemes(Liquid Fund)\r\n \r\nExample Fund House" ++
    "\r\n \r\n101;INF1;INF2;Example Scheme;10.1234;01-Jan-2020\r\n \r\n"

/-- The same input, except that the single-space blank line is the final
line (no trailing line terminator, hence no final empty-string line). -/
def c1InputAmended : String :=
  canonicalHeader ++
    "\r\n \r\nOpen Ended Schemes(Liquid Fund)\r\n \r\nExample Fund House" ++
    "\r\n \r\n101;INF1;INF2;Example Scheme;10.1234;01-Jan-2020\r\n "

/-- The record the scenario describes. -/
def c1Fund : Fund :=
  { SchemeCode := "101", SchemeName := "Example Scheme",
    ISINDivPayoutGrowth := "INF1", ISINDivReinvestment := "INF2",
    NAV := "10.1234", Date := "01-Jan-2020" }

/-- The hierarchy the scenario describes. -/
def c1Hierarchy : Hierarchy :=
  [("Open Ended Schemes",
    [("Liquid Fund", [("Example Fund House", [c1Fund])])])]

/-- A group-header line with an opening parenthesis but no closing one,
inside an otherwise well-formed input. -/
def c6Input : String :=
  canonicalHeader ++
    "\r\n \r\nOpen Ended Schemes(Liquid Fund\r\n \r\nOrg" ++
    "\r\n \r\n101;INF1;INF2;N;10;D\r\n "

/-- What the parser actually produces for `c6Input`: the sub-category is
the text after `'('` with its last character stripped. -/
def c6Hierarchy : Hierarchy :=
  [("Open Ended Schemes",
    [("Liquid Fun",
      [("Org",
        [{ SchemeCode := "101", SchemeName := "N",
           ISINDivPayoutGrowth := "INF1", ISINDivReinvestment := "INF2",
           NAV := "10", Date := "D" }])])])]

/-! ## Well-formed inputs, rendered from a block structure

To state the global counting and accumulation properties (claims about
"every well-formed input") we describe an input generatively: a header
line followed by group blocks, each consisting of a group-header line and
a non-empty run of organisation blocks, each consisting of an
organisation line and a run of record lines, with the single-space blank
separators the format demands.  `renderInput` produces exactly the line
list such a file splits into. -/

/-- One organisation block: the organisation line and its record lines
(record lines may be the empty string; those are skipped by the parser). -/
structure OrgBlock where
  name : String
  records : List String
deriving DecidableEq, Repr

/-- One group block: the group-header line and its organisation blocks. -/
structure GroupBlock where
  header : String
  orgs : List OrgBlock
deriving DecidableEq, Repr

/-- Lines of one organisation block: name, blank, records, blank. -/
def renderOrg (o : OrgBlock) : List String :=
  o.name :: EMPTY_LINE :: (o.records ++ [EMPTY_LINE])

/-- Lines of one group block: header, blank, then the organisation
blocks. -/
def renderGroup (g : GroupBlock) : List String :=
  g.header :: EMPTY_LINE :: (g.orgs.map renderOrg).flatten

/-- The full line list of a well-formed input: header line, blank, then
the group blocks. -/
def renderInput (hline : String) (gs : List GroupBlock) : List String :=
  hline :: EMPTY_LINE :: (gs.map renderGroup).flatten

/-- A record line is acceptable when it is not the single-space
separator and, unless empty (in which case the parser skips it), it
decodes successfully against the schema. -/
def recordOk (schema : List String) (r : String) : Prop :=
  r ≠ EMPTY_LINE ∧ (r ≠ "" → ((parse_fund_string schema r).toOption).isSome = true)

/-- An organisation block is acceptable when its name contains no
category marker and all its record lines are acceptable. -/
def orgOk (schema : List String) (o : OrgBlock) : Prop :=
  SCHEME_TYPE_CLASSES.all (fun c => !(strContains o.name c)) = true ∧
    ∀ r ∈ o.records, recordOk schema r

/-- A group block is acceptable when its header contains a category
marker and an opening parenthesis, and it has at least one acceptable
organisation block. -/
def groupOk (schema : List String) (g : GroupBlock) : Prop :=
  SCHEME_TYPE_CLASSES.any (fun c => strContains g.header c) = true ∧
    (pySplitOn '(' g.header).get? 1 ≠ none ∧
    g.orgs ≠ [] ∧
    ∀ o ∈ g.orgs, orgOk schema o

/-- A well-formed input: at least one group block, all acceptable for
the schema read off the header line. -/
def wfInput (hline : String) (gs : List GroupBlock) : Prop :=
  gs ≠ [] ∧ ∀ g ∈ gs, groupOk (pySplitOn ';' hline) g

/-! ## The expected result of a well-formed parse -/

/-- The funds decoded from an organisation's record lines (empty lines
contribute nothing). -/
def decodedRecords (schema : List String) (rs : List String) : List Fund :=
  rs.filterMap (fun r => if r = "" then none else (parse_fund_string schema r).toOption)

/-- Append a run of decoded funds to one bucket. -/
def appendFunds (H : Hierarchy) (t s h : String) (fds : List Fund) : Hierarchy :=
  fds.foldl (fun H' fd => appendFund H' t s h fd) H

/-- Effect of one organisation block on the hierarchy: ensure the bucket
exists, then append the decoded records. -/
def addOrg (schema : List String) (t s : String) (H : Hierarchy) (o : OrgBlock) :
    Hierarchy :=
  appendFunds (ensureOrg H t s o.name) t s o.name (decodedRecords schema o.records)

/-- The category and sub-category keys a group-header line produces. -/
def groupKeysOf (g : GroupBlock) : String × String :=
  let parts := pySplitOn '(' g.header
  (parts.headI, pyDropLast (((parts.get? 1).getD "")))

/-- Effect of one group block on the hierarchy. -/
def addGroup (schema : List String) (H : Hierarchy) (g : GroupBlock) : Hierarchy :=
  let t := (groupKeysOf g).1
  let s := (groupKeysOf g).2
  g.orgs.foldl (addOrg schema t s) (ensureSub (ensureType H t) t s)

/-- The hierarchy a well-formed input parses to. -/
def buildHierarchy (schema : List String) (gs : List GroupBlock) : Hierarchy :=
  gs.foldl (addGroup schema) []

/-! ## Counting and bucket contents -/

/-- Total number of records stored across all buckets. -/
def totalCount (H : Hierarchy) : Nat :=
  (H.map (fun pt =>
    (pt.2.map (fun ps => (ps.2.map (fun ph => ph.2.length)).sum)).sum)).sum

/-- Number of non-blank data lines of a well-formed input. -/
def dataLineCount (gs : List GroupBlock) : Nat :=
  (gs.map (fun g =>
    (g.orgs.map (fun o => (o.records.filter (fun r => r ≠ "")).length)).sum)).sum

/-- Full three-level lookup in the hierarchy. -/
def lookup3 (H : Hierarchy) (t s h : String) : Option (List Fund) :=
  match dictGet H t with
  | none => none
  | some d2 =>
    match dictGet d2 s with
    | none => none
    | some d3 => dictGet d3 h

/-- Two-level lookup. -/
def lookup2 (H : Hierarchy) (t s : String) :
    Option (List (String × List Fund)) :=
  match dictGet H t with
  | none => none
  | some d2 => dictGet d2 s

/-- Concatenated decoded records of every organisation block named `h`
in a list of organisation blocks, in order of appearance. -/
def orgContrib (schema : List String) (orgs : List OrgBlock) (h : String) :
    List Fund :=
  ((orgs.filter (fun o => o.name = h)).map
    (fun o => decodedRecords schema o.records)).flatten

/-- Does an organisation named `h` appear in the list? -/
def orgAppeared (orgs : List OrgBlock) (h : String) : Bool :=
  orgs.any (fun o => o.name = h)

/-- Concatenated decoded records of organisation `h` across every group
block whose header produces the keys `(t, s)`, in file order. -/
def groupContrib (schema : List String) (gs : List GroupBlock)
    (t s h : String) : List Fund :=
  ((gs.filter (fun g => groupKeysOf g = (t, s))).map
    (fun g => orgContrib schema g.orgs h)).flatten

/-- Does the triple `(t, s, h)` appear anywhere in the input? -/
def tripleAppeared (gs : List GroupBlock) (t s h : String) : Bool :=
  gs.any (fun g => groupKeysOf g = (t, s) && orgAppeared g.orgs h)

/-- The bucket the spec predicts for a triple: present exactly when the
triple appears, holding every occurrence's records concatenated in file
order. -/
def specBucket (schema : List String) (gs : List GroupBlock)
    (t s h : String) : Option (List Fund) :=
  if tripleAppeared gs t s h then some (groupContrib schema gs t s h) else none

/-- Keys at every level of the hierarchy are pairwise distinct (true of
every hierarchy the parser builds, needed for counting). -/
def HierOk (H : Hierarchy) : Prop :=
  (H.map Prod.fst).Nodup ∧
    ∀ p ∈ H, (p.2.map Prod.fst).Nodup ∧ ∀ q ∈ p.2, (q.2.map Prod.fst).Nodup

/-- Fuel sufficient for one organisation block. -/
def orgCost (o : OrgBlock) : Nat := o.records.length + 2

/-- Fuel sufficient for the organisation loop over a block list. -/
def orgsCost (orgs : List OrgBlock) : Nat := (orgs.map orgCost).sum + 1

/-- Fuel sufficient for one pass of the class loop over the remaining
group blocks. -/
def groupsCost (gs : List GroupBlock) : Nat :=
  (gs.map (fun g => orgsCost g.orgs + 1)).sum + 1

/-- Fuel sufficient for the whole outer loop over the remaining group
blocks. -/
def outerCost (gs : List GroupBlock) : Nat :=
  groupsCost gs + gs.length + 1

/-- Records stored in one organisation dictionary. -/
def cntOrg (d3 : List (String × List Fund)) : Nat :=
  (d3.map (fun ph => ph.2.length)).sum

/-- Records stored in one sub-category dictionary. -/
def cntSub (d2 : List (String × List (String × List Fund))) : Nat :=
  (d2.map (fun ps => cntOrg ps.2)).sum

/-- A concrete well-formed input with two data lines and one interior
empty line, used to exercise the round-trip count. -/
def c3Blocks : List GroupBlock :=
  [⟨"Open Ended Schemes(Liquid Fund)",
    [⟨"Example Fund House",
      ["101;INF1;INF2;Example Scheme;10.1234;01-Jan-2020", "",
       "102;INF3;INF4;Second Scheme;11.5000;02-Jan-2020"]⟩]⟩]

/-- A concrete well-formed input in which the triple
(Open Ended Schemes, Liquid Fund, Example Fund House) appears in two
non-contiguous blocks, used to exercise bucket accumulation. -/
def c4Blocks : List GroupBlock :=
  [⟨"Open Ended Schemes(Liquid Fund)",
    [⟨"Example Fund House",
      ["101;INF1;INF2;Example Scheme;10.1234;01-Jan-2020"]⟩]⟩,
   ⟨"Close Ended Schemes(Income)",
    [⟨"Other Fund House",
      ["102;INF3;INF4;Other Scheme;11.5000;02-Jan-2020"]⟩]⟩,
   ⟨"Open Ended Schemes(Liquid Fund)",
    [⟨"Example Fund House",
      ["103;INF5;INF6;Third Scheme;12.5000;03-Jan-2020"]⟩]⟩]

instance (schema : List String) (r : String) : Decidable (recordOk schema r) := by
  unfold recordOk
  exact inferInstance

instance (schema : List String) (o : OrgBlock) : Decidable (orgOk schema o) := by
  unfold orgOk
  exact inferInstance

instance (schema : List String) (g : GroupBlock) : Decidable (groupOk schema g) := by
  unfold groupOk
  exact inferInstance

instance (hline : String) (gs : List GroupBlock) : Decidable (wfInput hline gs) := by
  unfold wfInput
  exact inferInstance

/-! ## Lemmas about the dictionary operations -/

theorem dictGet_map_set {α : Type} (d : List (String × α)) (k k' : String) (v : α) :
    dictGet (d.map (fun p => if p.1 = k then (p.1, v) else p)) k' =
      if k' = k then (dictGet d k').map (fun _ => v) else dictGet d k' := by
  induction d with
  | nil => simp [dictGet]
  | cons p rest ih =>
    by_cases h1 : p.1 = k
    · by_cases h2 : p.1 = k'
      · have hk : k' = k := by rw [← h2, h1]
        simp [dictGet, h1, h2, hk]
      · have hk : ¬ k' = k := fun he => h2 (by rw [h1, he])
        have hk2 : ¬ k = k' := fun he => hk he.symm
        simp [dictGet, h1, h2, hk, hk2, ih]
    · by_cases h2 : p.1 = k'
      · have hk : ¬ k' = k := fun he => h1 (by rw [h2, he])
        simp [dictGet, h1, h2, hk]
      · simp [dictGet, h1, h2, ih]

theorem dictGet_append_single {α : Type} (d : List (String × α)) (k k' : String) (v : α) :
    dictGet (d ++ [(k, v)]) k' =
      match dictGet d k' with
      | some x => some x
      | none => if k = k' then some v else none := by
  induction d with
  | nil => simp [dictGet]
  | cons p rest ih =>
    by_cases h : p.1 = k' <;> simp [dictGet, h, ih]

theorem dictMem_eq_false {α : Type} (d : List (String × α)) (k : String)
    (h : dictGet d k = none) : dictMem d k = false := by
  simp [dictMem, h]

theorem dictGet_dictInsert {α : Type} (d : List (String × α)) (k k' : String) (v : α) :
    dictGet (dictInsert d k v) k' = if k' = k then some v else dictGet d k' := by
  unfold dictInsert
  cases hdg : dictGet d k with
  | some x =>
    have hm : dictMem d k = true := by simp [dictMem, hdg]
    rw [hm, if_pos rfl, dictGet_map_set]
    by_cases h : k' = k
    · subst h; simp [hdg]
    · simp [h]
  | none =>
    rw [dictMem_eq_false d k hdg]
    simp only [Bool.false_eq_true, if_false]
    rw [dictGet_append_single]
    by_cases h : k' = k
    · subst h; simp [hdg]
    · cases hdg2 : dictGet d k' <;> simp [hdg2, h, Ne.symm h]

theorem dictGet_ensureKey {α : Type} (d : List (String × α)) (k k' : String) (v : α) :
    dictGet (ensureKey d k v) k' =
      if k' = k then some ((dictGet d k).getD v) else dictGet d k' := by
  unfold ensureKey
  cases hdg : dictGet d k with
  | some x =>
    have hm : dictMem d k = true := by simp [dictMem, hdg]
    rw [hm, if_pos rfl]
    by_cases h : k' = k
    · subst h; simp [hdg]
    · simp [h]
  | none =>
    rw [dictMem_eq_false d k hdg]
    simp only [Bool.false_eq_true, if_false]
    rw [dictGet_append_single]
    by_cases h : k' = k
    · subst h; simp [hdg]
    · cases hdg2 : dictGet d k' <;> simp [hdg2, h, Ne.symm h]

theorem dictGet_dictModify_self {α : Type} (d : List (String × α)) (k : String)
    (f : α → α) :
    dictGet (dictModify d k f) k = (dictGet d k).map f := by
  induction d with
  | nil => simp [dictGet, dictModify]
  | cons p rest ih =>
    by_cases h : p.1 = k
    · simp [dictGet, dictModify, h]
    · simp only [dictModify] at ih
      simp [dictGet, dictModify, h, ih]

theorem dictGet_dictModify_other {α : Type} (d : List (String × α)) (k k' : String)
    (f : α → α) (h : k' ≠ k) :
    dictGet (dictModify d k f) k' = dictGet d k' := by
  induction d with
  | nil => simp [dictGet, dictModify]
  | cons p rest ih =>
    simp only [dictModify] at ih
    by_cases h1 : p.1 = k
    · have h2 : ¬ p.1 = k' := fun he => h (by rw [← he, h1])
      have hk2 : ¬ k = k' := fun he => h he.symm
      simp [dictGet, dictModify, h1, h2, hk2, ih]
    · by_cases h2 : p.1 = k'
      · simp [dictGet, dictModify, h1, h2, h]
      · simp [dictGet, dictModify, h1, h2, ih]

/-! ## Lemmas about the record decoder -/

theorem buildFundDict_ok_of_known (pairs : List (String × String)) :
    ∀ acc, (∀ p ∈ pairs, dictGet DATACLASS_AMFI_NAMES_TRANSFORMS p.1 ≠ none) →
      ∃ d, buildFundDict acc pairs = .ok d := by
  induction pairs with
  | nil => intro acc _; exact ⟨acc, rfl⟩
  | cons q rest ih =>
    intro acc hknown
    obtain ⟨k, v⟩ := q
    cases hq : dictGet DATACLASS_AMFI_NAMES_TRANSFORMS k with
    | none => exact absurd hq (hknown (k, v) (List.mem_cons_self _ _))
    | some k' =>
      obtain ⟨d, hd⟩ := ih (dictInsert acc k' v)
        (fun p hp => hknown p (List.mem_cons_of_mem _ hp))
      exact ⟨d, by simp [buildFundDict, hq, hd]⟩

theorem buildFundDict_preserves (pairs : List (String × String)) :
    ∀ acc d n, buildFundDict acc pairs = .ok d →
      dictGet acc n ≠ none → dictGet d n ≠ none := by
  induction pairs with
  | nil => intro acc d n h hacc; cases h; exact hacc
  | cons q rest ih =>
    intro acc d n h hacc
    obtain ⟨k, v⟩ := q
    cases hq : dictGet DATACLASS_AMFI_NAMES_TRANSFORMS k with
    | none => simp [buildFundDict, hq] at h
    | some k' =>
      simp only [buildFundDict, hq] at h
      refine ih _ _ _ h ?_
      rw [dictGet_dictInsert]
      by_cases hn : n = k' <;> simp [hn, hacc]

theorem buildFundDict_mem_present (pairs : List (String × String)) :
    ∀ acc d k v n, buildFundDict acc pairs = .ok d → (k, v) ∈ pairs →
      dictGet DATACLASS_AMFI_NAMES_TRANSFORMS k = some n →
      dictGet d n ≠ none := by
  induction pairs with
  | nil => intro _ _ _ _ _ _ hmem; simp at hmem
  | cons q rest ih =>
    intro acc d k v n h hmem htr
    obtain ⟨k0, v0⟩ := q
    cases hq : dictGet DATACLASS_AMFI_NAMES_TRANSFORMS k0 with
    | none => simp [buildFundDict, hq] at h
    | some k0' =>
      simp only [buildFundDict, hq] at h
      rcases List.mem_cons.mp hmem with heq | hmem'
      · obtain ⟨hk, hv⟩ := Prod.mk.injEq .. ▸ heq
        subst hk; subst hv
        rw [htr] at hq
        cases hq
        refine buildFundDict_preserves rest _ _ _ h ?_
        rw [dictGet_dictInsert]
        simp
      · exact ih _ _ _ _ _ h hmem' htr

theorem buildFundDict_key_source (pairs : List (String × String)) :
    ∀ acc d n, buildFundDict acc pairs = .ok d → dictGet d n ≠ none →
      dictGet acc n ≠ none ∨
        ∃ p ∈ pairs, dictGet DATACLASS_AMFI_NAMES_TRANSFORMS p.1 = some n := by
  induction pairs with
  | nil => intro acc d n h hd; cases h; exact Or.inl hd
  | cons q rest ih =>
    intro acc d n h hd
    obtain ⟨k, v⟩ := q
    cases hq : dictGet DATACLASS_AMFI_NAMES_TRANSFORMS k with
    | none => simp [buildFundDict, hq] at h
    | some k' =>
      simp only [buildFundDict, hq] at h
      rcases ih _ _ _ h hd with hacc | ⟨p, hp, htr⟩
      · rw [dictGet_dictInsert] at hacc
        by_cases hn : n = k'
        · subst hn
          exact Or.inr ⟨(k, v), List.mem_cons_self _ _, hq⟩
        · simp only [hn, if_false] at hacc
          exact Or.inl hacc
      · exact Or.inr ⟨p, List.mem_cons_of_mem _ hp, htr⟩

theorem buildFundDict_unknown_err (pairs : List (String × String)) :
    ∀ acc, (∃ p ∈ pairs, dictGet DATACLASS_AMFI_NAMES_TRANSFORMS p.1 = none) →
      ∃ lab, buildFundDict acc pairs = .error (.keyError lab) ∧
        dictGet DATACLASS_AMFI_NAMES_TRANSFORMS lab = none := by
  induction pairs with
  | nil => intro _ h; simp at h
  | cons q rest ih =>
    intro acc h
    obtain ⟨k, v⟩ := q
    cases hq : dictGet DATACLASS_AMFI_NAMES_TRANSFORMS k with
    | none => exact ⟨k, by simp [buildFundDict, hq], hq⟩
    | some k' =>
      obtain ⟨p, hp, htr⟩ := h
      rcases List.mem_cons.mp hp with heq | hmem'
      · rw [heq] at htr; simp only at htr; rw [htr] at hq; cases hq
      · obtain ⟨lab, h1, h2⟩ := ih (dictInsert acc k' v) ⟨p, hmem', htr⟩
        exact ⟨lab, by simp [buildFundDict, hq, h1], h2⟩

theorem buildFundDict_untouched (pairs : List (String × String)) :
    ∀ acc d n, buildFundDict acc pairs = .ok d →
      (∀ p ∈ pairs, dictGet DATACLASS_AMFI_NAMES_TRANSFORMS p.1 ≠ some n) →
      dictGet d n = dictGet acc n := by
  induction pairs with
  | nil => intro acc d n h _; cases h; rfl
  | cons q rest ih =>
    intro acc d n h hne
    obtain ⟨k, v⟩ := q
    cases hq : dictGet DATACLASS_AMFI_NAMES_TRANSFORMS k with
    | none => simp [buildFundDict, hq] at h
    | some k' =>
      simp only [buildFundDict, hq] at h
      have hk' : n ≠ k' := by
        intro he
        exact hne (k, v) (List.mem_cons_self _ _) (by rw [hq, he])
      rw [ih _ _ _ h (fun p hp => hne p (List.mem_cons_of_mem _ hp)),
        dictGet_dictInsert]
      simp [hk']

theorem buildFundDict_value (pairs : List (String × String)) :
    ∀ acc d k v n, buildFundDict acc pairs = .ok d →
      (k, v) ∈ pairs → dictGet DATACLASS_AMFI_NAMES_TRANSFORMS k = some n →
      (∀ p ∈ pairs, dictGet DATACLASS_AMFI_NAMES_TRANSFORMS p.1 = some n →
        p = (k, v)) →
      dictGet d n = some v := by
  induction pairs with
  | nil => intro _ _ _ _ _ _ hmem; simp at hmem
  | cons q rest ih =>
    intro acc d k v n h hmem htr huniq
    obtain ⟨k0, v0⟩ := q
    cases hq : dictGet DATACLASS_AMFI_NAMES_TRANSFORMS k0 with
    | none => simp [buildFundDict, hq] at h
    | some k0' =>
      simp only [buildFundDict, hq] at h
      by_cases hmem' : (k, v) ∈ rest
      · exact ih _ _ _ _ _ h hmem' htr
          (fun p hp => huniq p (List.mem_cons_of_mem _ hp))
      · have heq : (k0, v0) = (k, v) := by
          rcases List.mem_cons.mp hmem with he | hmem''
          · exact he.symm
          · exact absurd hmem'' hmem'
        obtain ⟨hk, hv⟩ := Prod.mk.injEq .. ▸ heq
        subst hk; subst hv
        rw [htr] at hq
        cases hq
        have hrest : ∀ p ∈ rest, dictGet DATACLASS_AMFI_NAMES_TRANSFORMS p.1 ≠ some n := by
          intro p hp hps
          exact hmem' (huniq p (List.mem_cons_of_mem _ hp) hps ▸ hp)
        rw [buildFundDict_untouched rest _ _ _ h hrest, dictGet_dictInsert]
        simp

theorem transform_cases (a n : String)
    (h : dictGet DATACLASS_AMFI_NAMES_TRANSFORMS a = some n) :
    (a = "Scheme Code" ∧ n = "SchemeCode") ∨
    (a = "ISIN Div Payout/ ISIN Growth" ∧ n = "ISINDivPayoutGrowth") ∨
    (a = "ISIN Div Reinvestment" ∧ n = "ISINDivReinvestment") ∨
    (a = "Scheme Name" ∧ n = "SchemeName") ∨
    (a = "Net Asset Value" ∧ n = "NAV") ∨
    (a = "Date" ∧ n = "Date") := by
  simp only [DATACLASS_AMFI_NAMES_TRANSFORMS, dictGet] at h
  split_ifs at h <;> simp_all

theorem transform_inj (a b n : String)
    (ha : dictGet DATACLASS_AMFI_NAMES_TRANSFORMS a = some n)
    (hb : dictGet DATACLASS_AMFI_NAMES_TRANSFORMS b = some n) : a = b := by
  rcases transform_cases a n ha with ⟨h1, h2⟩ | ⟨h1, h2⟩ | ⟨h1, h2⟩ | ⟨h1, h2⟩ |
    ⟨h1, h2⟩ | ⟨h1, h2⟩ <;> subst h2 <;>
    rcases transform_cases b _ hb with ⟨g1, g2⟩ | ⟨g1, g2⟩ | ⟨g1, g2⟩ | ⟨g1, g2⟩ |
      ⟨g1, g2⟩ | ⟨g1, g2⟩ <;> simp_all

theorem transform_known_of_canonical (a : String) (ha : a ∈ canonicalLabels) :
    dictGet DATACLASS_AMFI_NAMES_TRANSFORMS a ≠ none := by
  simp only [canonicalLabels, List.mem_cons, List.not_mem_nil, or_false] at ha
  rcases ha with h | h | h | h | h | h <;> subst h <;> decide

theorem mkFund_fields (d : List (String × String)) (fd : Fund)
    (h : mkFund d = .ok fd) :
    dictGet d "SchemeCode" = some fd.SchemeCode ∧
    dictGet d "SchemeName" = some fd.SchemeName ∧
    dictGet d "ISINDivPayoutGrowth" = some fd.ISINDivPayoutGrowth ∧
    dictGet d "ISINDivReinvestment" = some fd.ISINDivReinvestment ∧
    dictGet d "NAV" = some fd.NAV ∧
    dictGet d "Date" = some fd.Date := by
  unfold mkFund at h
  cases h1 : dictGet d "SchemeCode" <;> rw [h1] at h <;>
  cases h2 : dictGet d "SchemeName" <;> rw [h2] at h <;>
  cases h3 : dictGet d "ISINDivPayoutGrowth" <;> rw [h3] at h <;>
  cases h4 : dictGet d "ISINDivReinvestment" <;> rw [h4] at h <;>
  cases h5 : dictGet d "NAV" <;> rw [h5] at h <;>
  cases h6 : dictGet d "Date" <;> rw [h6] at h <;>
    simp only [] at h <;> cases h <;> simp

theorem mkFund_ok_of_present (d : List (String × String))
    (h : ∀ n ∈ fundFieldNames, dictGet d n ≠ none) :
    ∃ fd, mkFund d = .ok fd := by
  have h1 := h "SchemeCode" (by simp [fundFieldNames])
  have h2 := h "SchemeName" (by simp [fundFieldNames])
  have h3 := h "ISINDivPayoutGrowth" (by simp [fundFieldNames])
  have h4 := h "ISINDivReinvestment" (by simp [fundFieldNames])
  have h5 := h "NAV" (by simp [fundFieldNames])
  have h6 := h "Date" (by simp [fundFieldNames])
  cases g1 : dictGet d "SchemeCode" with
  | none => exact absurd g1 h1
  | some x1 =>
  cases g2 : dictGet d "SchemeName" with
  | none => exact absurd g2 h2
  | some x2 =>
  cases g3 : dictGet d "ISINDivPayoutGrowth" with
  | none => exact absurd g3 h3
  | some x3 =>
  cases g4 : dictGet d "ISINDivReinvestment" with
  | none => exact absurd g4 h4
  | some x4 =>
  cases g5 : dictGet d "NAV" with
  | none => exact absurd g5 h5
  | some x5 =>
  cases g6 : dictGet d "Date" with
  | none => exact absurd g6 h6
  | some x6 =>
    exact ⟨⟨x1, x2, x3, x4, x5, x6⟩, by simp [mkFund, g1, g2, g3, g4, g5, g6]⟩

theorem mkFund_total (d : List (String × String)) :
    (∃ fd, mkFund d = .ok fd) ∨ mkFund d = .error .typeError := by
  unfold mkFund
  cases dictGet d "SchemeCode" <;> cases dictGet d "SchemeName" <;>
    cases dictGet d "ISINDivPayoutGrowth" <;>
    cases dictGet d "ISINDivReinvestment" <;>
    cases dictGet d "NAV" <;> cases dictGet d "Date" <;> simp

theorem mkFund_err_of_missing (d : List (String × String)) (n : String)
    (hn : n ∈ fundFieldNames) (h : dictGet d n = none) :
    mkFund d = .error .typeError := by
  rcases mkFund_total d with ⟨fd, hfd⟩ | he
  · obtain ⟨f1, f2, f3, f4, f5, f6⟩ := mkFund_fields d fd hfd
    simp only [fundFieldNames, List.mem_cons, List.not_mem_nil, or_false] at hn
    rcases hn with g | g | g | g | g | g <;> subst g <;> simp_all
  · exact he

theorem get?_zip' {α β : Type} (l1 : List α) (l2 : List β) (i : Nat) (a : α) (b : β)
    (h1 : l1.get? i = some a) (h2 : l2.get? i = some b) :
    (l1.zip l2).get? i = some (a, b) :=
  (List.get?_zip_eq_some l1 l2 (a, b) i).mpr ⟨h1, h2⟩

theorem zip_take_self {α β : Type} :
    ∀ (l1 : List α) (l2 : List β), l1.zip l2 = l1.zip (l2.take l1.length) := by
  intro l1
  induction l1 with
  | nil => intro l2; rfl
  | cons a as ih =>
    intro l2
    cases l2 with
    | nil => rfl
    | cons b bs => simp [List.zip_cons_cons, ih bs]

theorem transform_target_canonical (a n : String)
    (h : dictGet DATACLASS_AMFI_NAMES_TRANSFORMS a = some n) :
    n ∈ fundFieldNames := by
  rcases transform_cases a n h with ⟨_, h2⟩ | ⟨_, h2⟩ | ⟨_, h2⟩ | ⟨_, h2⟩ |
    ⟨_, h2⟩ | ⟨_, h2⟩ <;> subst h2 <;> simp [fundFieldNames]

theorem fieldName_source :
    ∀ n ∈ fundFieldNames, ∃ lab ∈ canonicalLabels,
      dictGet DATACLASS_AMFI_NAMES_TRANSFORMS lab = some n := by
  decide

theorem get?_lt_length {α : Type} {l : List α} {i : Nat} {a : α}
    (h : l.get? i = some a) : i < l.length := by
  by_contra hge
  push_neg at hge
  rw [List.get?_eq_none.mpr hge] at h
  cases h

theorem known_of_zip_perm (schema : List String) (toks : List String)
    (hperm : schema.Perm canonicalLabels) :
    ∀ p ∈ schema.zip toks, dictGet DATACLASS_AMFI_NAMES_TRANSFORMS p.1 ≠ none := by
  intro p hp
  have hmem : p.1 ∈ schema := (List.of_mem_zip hp).1
  exact transform_known_of_canonical p.1 (hperm.mem_iff.mp hmem)

/-! ## Claims about the record decoder -/

/-- C2 (counterexample): a data line with MORE delimiter-separated
tokens than the schema length does not fail: with the canonical
six-label schema a seven-token line decodes successfully to the `Fund`
built from the first six tokens, contradicting the claim that any token
count other than the schema length raises `SchemaError`. -/
theorem C2_counterexample :
    (pySplitOn ';' "1;2;3;4;5;6;7").length ≠ canonicalLabels.length ∧
      parse_fund_string canonicalLabels "1;2;3;4;5;6;7" =
        .ok { SchemeCode := "1", SchemeName := "4", ISINDivPayoutGrowth := "2",
              ISINDivReinvestment := "3", NAV := "5", Date := "6" } := by
  constructor
  · decide
  · rfl

/-- C2 (amended): for a schema that is a permutation of the six known
column labels, a data line with FEWER delimiter-separated tokens than the
schema length fails to decode (with the `TypeError` of the `Fund(**d)`
call, the code's form of the spec's `SchemaError`); a line with more
tokens than the schema length decodes successfully (see the
counterexample), so only the missing-token half of the claim holds. -/
theorem C2_theorem (schema : List String) (line : String)
    (hperm : schema.Perm canonicalLabels)
    (hlen : (pySplitOn ';' line).length < schema.length) :
    parse_fund_string schema line = .error .typeError := by
  set toks := pySplitOn ';' line with htoks
  have hknown := known_of_zip_perm schema toks hperm
  obtain ⟨d, hd⟩ := buildFundDict_ok_of_known (schema.zip toks) [] hknown
  have hlen6 : schema.length = 6 := by
    rw [hperm.length_eq]; rfl
  have hnodup : schema.Nodup := hperm.nodup_iff.mpr (by decide)
  -- the label at position `toks.length` is beyond every zipped pair
  have hm6 : toks.length < schema.length := hlen
  obtain ⟨lab, hlab⟩ : ∃ lab, schema.get? toks.length = some lab := by
    rw [List.get?_eq_get hm6]; exact ⟨_, rfl⟩
  have hlabmem : lab ∈ schema := List.get?_mem hlab
  cases htr : dictGet DATACLASS_AMFI_NAMES_TRANSFORMS lab with
  | none => exact absurd htr (transform_known_of_canonical lab (hperm.mem_iff.mp hlabmem))
  | some n =>
    have hmiss : dictGet d n = none := by
      cases hdg : dictGet d n with
      | none => rfl
      | some x =>
        exfalso
        rcases buildFundDict_key_source (schema.zip toks) [] d n hd
            (by rw [hdg]; exact fun hc => Option.noConfusion hc) with hacc | ⟨p, hp, hptr⟩
        · exact hacc rfl
        · obtain ⟨k, v⟩ := p
          have hk : k = lab := transform_inj k lab n hptr htr
          subst hk
          obtain ⟨j, hj⟩ := List.mem_iff_get?.mp hp
          have hj1 : schema.get? j = some k :=
            ((List.get?_zip_eq_some schema toks (k, v) j).mp hj).1
          have hjlt : j < (schema.zip toks).length := get?_lt_length hj
          have hjm : j < toks.length := by
            rw [List.length_zip] at hjlt
            omega
          have hji : j = toks.length := by
            refine List.get?_inj ?_ hnodup ?_
            · exact get?_lt_length hj1
            · rw [hj1, hlab]
          omega
    have herr : mkFund d = .error .typeError :=
      mkFund_err_of_missing d n (transform_target_canonical lab n htr) hmiss
    show parseFundTokens schema toks = .error .typeError
    unfold parseFundTokens
    rw [hd]
    exact herr

/-- C2 (witness): the canonical schema with a five-token line. -/
theorem C2_witness :
    ((pySplitOn ';' "1;2;3;4;5").length < canonicalLabels.length) ∧
      parse_fund_string canonicalLabels "1;2;3;4;5" = .error .typeError :=
  ⟨by decide, C2_theorem canonicalLabels "1;2;3;4;5" (List.Perm.refl _) (by decide)⟩

/-- C5 (counterexample): an input whose header contains an unknown
column label ("Bogus Label") parses SUCCESSFULLY (to the empty
hierarchy) when it contains no data line, contradicting the claim that
the parse fails with `SchemaError` at the header-processing step: the
code never validates the header against the lookup table. -/
theorem C5_counterexample :
    parse_nav_file_lines 8 "Bogus Label;Date\r\n \r\n" = .ok [] := by
  rfl

/-- C5 (amended): an unknown column label surfaces as a `KeyError` (the
code's form of the spec's `SchemaError`) only when a data line is
decoded and the label is among those zipped against the line's tokens;
the parse does not fail at the header step, and an input with no data
lines succeeds in spite of the unknown label (see the
counterexample). -/
theorem C5_theorem (schema : List String) (line : String)
    (hbad : ∃ p ∈ schema.zip (pySplitOn ';' line),
      dictGet DATACLASS_AMFI_NAMES_TRANSFORMS p.1 = none) :
    ∃ lab, parse_fund_string schema line = .error (.keyError lab) ∧
      dictGet DATACLASS_AMFI_NAMES_TRANSFORMS lab = none := by
  obtain ⟨lab, h1, h2⟩ :=
    buildFundDict_unknown_err (schema.zip (pySplitOn ';' line)) [] hbad
  refine ⟨lab, ?_, h2⟩
  show parseFundTokens schema (pySplitOn ';' line) = _
  unfold parseFundTokens
  rw [h1]

/-- C5 (witness): schema with the unknown label "Bogus" zipped against
a one-token line. -/
theorem C5_witness :
    (∃ p ∈ (["Bogus"] : List String).zip (pySplitOn ';' "x"),
      dictGet DATACLASS_AMFI_NAMES_TRANSFORMS p.1 = none) ∧
      ∃ lab, parse_fund_string ["Bogus"] "x" = .error (.keyError lab) ∧
        dictGet DATACLASS_AMFI_NAMES_TRANSFORMS lab = none :=
  ⟨by decide, C5_theorem ["Bogus"] "x" (by decide)⟩

/-- C9: for a schema that is a permutation of the six known column
labels and a data line with exactly six tokens, decoding succeeds and
each `Fund` field receives the token at the position where the header
declares that column: the assignment follows the header's declared
order, not fixed offsets nor the lookup table's internal key order. -/
theorem C9_theorem (schema : List String) (line : String)
    (hperm : schema.Perm canonicalLabels)
    (hlen : (pySplitOn ';' line).length = 6) :
    ∃ fd, parse_fund_string schema line = .ok fd ∧
      ∀ i lab n, schema.get? i = some lab →
        dictGet DATACLASS_AMFI_NAMES_TRANSFORMS lab = some n →
        fundField fd n = (pySplitOn ';' line).get? i := by
  set toks := pySplitOn ';' line with htoks
  have hknown := known_of_zip_perm schema toks hperm
  obtain ⟨d, hd⟩ := buildFundDict_ok_of_known (schema.zip toks) [] hknown
  have hlen6 : schema.length = 6 := by
    rw [hperm.length_eq]; rfl
  have hnodup : schema.Nodup := hperm.nodup_iff.mpr (by decide)
  have hpresent : ∀ n ∈ fundFieldNames, dictGet d n ≠ none := by
    intro n hn
    obtain ⟨lab, hlabc, htr⟩ := fieldName_source n hn
    have hlabmem : lab ∈ schema := hperm.mem_iff.mpr hlabc
    obtain ⟨i, hi⟩ := List.mem_iff_get?.mp hlabmem
    have hilt : i < schema.length := get?_lt_length hi
    obtain ⟨tok, htok⟩ : ∃ tok, toks.get? i = some tok := by
      rw [List.get?_eq_get (by omega : i < toks.length)]; exact ⟨_, rfl⟩
    have hpair : (lab, tok) ∈ schema.zip toks :=
      List.get?_mem (get?_zip' schema toks i lab tok hi htok)
    exact buildFundDict_mem_present (schema.zip toks) [] d lab tok n hd hpair htr
  obtain ⟨fd, hfd⟩ := mkFund_ok_of_present d hpresent
  have hrun : parse_fund_string schema line = .ok fd := by
    show parseFundTokens schema toks = .ok fd
    unfold parseFundTokens
    rw [hd]
    exact hfd
  refine ⟨fd, hrun, ?_⟩
  intro i lab n hi htr
  have hilt : i < schema.length := get?_lt_length hi
  obtain ⟨tok, htok⟩ : ∃ tok, toks.get? i = some tok := by
    rw [List.get?_eq_get (by omega : i < toks.length)]; exact ⟨_, rfl⟩
  have hpair : (lab, tok) ∈ schema.zip toks :=
    List.get?_mem (get?_zip' schema toks i lab tok hi htok)
  have huniq : ∀ p ∈ schema.zip toks,
      dictGet DATACLASS_AMFI_NAMES_TRANSFORMS p.1 = some n → p = (lab, tok) := by
    intro p hp hptr
    obtain ⟨k, v⟩ := p
    have hk : k = lab := transform_inj k lab n hptr htr
    subst hk
    obtain ⟨j, hj⟩ := List.mem_iff_get?.mp hp
    have hj1 : schema.get? j = some k :=
      ((List.get?_zip_eq_some schema toks (k, v) j).mp hj).1
    have hj2 : toks.get? j = some v :=
      ((List.get?_zip_eq_some schema toks (k, v) j).mp hj).2
    have hji : j = i := by
      refine List.get?_inj (get?_lt_length hj1) hnodup ?_
      rw [hj1, hi]
    subst hji
    rw [htok] at hj2
    cases hj2
    rfl
  have hval : dictGet d n = some tok :=
    buildFundDict_value (schema.zip toks) [] d lab tok n hd hpair htr huniq
  obtain ⟨f1, f2, f3, f4, f5, f6⟩ := mkFund_fields d fd hfd
  rw [htok]
  rcases transform_cases lab n htr with ⟨_, h2⟩ | ⟨_, h2⟩ | ⟨_, h2⟩ | ⟨_, h2⟩ |
    ⟨_, h2⟩ | ⟨_, h2⟩ <;> subst h2 <;> simp [fundField] <;>
    [skip; skip; skip; skip; skip; skip] <;> first
    | (rw [f1] at hval; cases hval; rfl)
    | (rw [f2] at hval; cases hval; rfl)
    | (rw [f3] at hval; cases hval; rfl)
    | (rw [f4] at hval; cases hval; rfl)
    | (rw [f5] at hval; cases hval; rfl)
    | (rw [f6] at hval; cases hval; rfl)

/-- C9 (witness): a permuted header ("Date" first) with a six-token
line; the theorem applies and its hypotheses hold by computation. -/
theorem C9_witness :
    (["Date", "Scheme Code", "ISIN Div Payout/ ISIN Growth",
      "ISIN Div Reinvestment", "Scheme Name",
      "Net Asset Value"] : List String).Perm canonicalLabels ∧
    (pySplitOn ';' "06-Jan;101;I1;I2;NameX;11.5").length = 6 ∧
    ∃ fd, parse_fund_string
        ["Date", "Scheme Code", "ISIN Div Payout/ ISIN Growth",
         "ISIN Div Reinvestment", "Scheme Name", "Net Asset Value"]
        "06-Jan;101;I1;I2;NameX;11.5" = .ok fd ∧
      ∀ i lab n,
        (["Date", "Scheme Code", "ISIN Div Payout/ ISIN Growth",
          "ISIN Div Reinvestment", "Scheme Name",
          "Net Asset Value"] : List String).get? i = some lab →
        dictGet DATACLASS_AMFI_NAMES_TRANSFORMS lab = some n →
        fundField fd n = (pySplitOn ';' "06-Jan;101;I1;I2;NameX;11.5").get? i :=
  ⟨by decide, by decide,
    C9_theorem _ "06-Jan;101;I1;I2;NameX;11.5" (by decide) (by decide)⟩

/-- C10 (counterexample): a schema of known labels that does not cover
all six record fields makes the decoder FAIL on a longer line rather
than succeed: with schema `["Date"]` (one known label) and the two-token
line `"a;b"`, decoding raises `TypeError` instead of returning a record
built from the first token, contradicting the claim as stated. -/
theorem C10_counterexample :
    (∀ lab ∈ (["Date"] : List String),
      (dictGet DATACLASS_AMFI_NAMES_TRANSFORMS lab).isSome = true) ∧
    (["Date"] : List String).length < (pySplitOn ';' "a;b").length ∧
    parse_fund_string ["Date"] "a;b" = .error .typeError := by
  refine ⟨by decide, by decide, ?_⟩
  rfl

/-- C10 (amended): for a schema all of whose labels are known AND whose
translations cover all six record fields, a data line with more tokens
than the schema length decodes successfully, and the result is exactly
the record obtained from only the first `n` tokens (surplus tokens are
silently discarded). -/
theorem C10_theorem (schema : List String) (line : String)
    (hknown : ∀ lab ∈ schema,
      dictGet DATACLASS_AMFI_NAMES_TRANSFORMS lab ≠ none)
    (hcover : ∀ n ∈ fundFieldNames, ∃ lab ∈ schema,
      dictGet DATACLASS_AMFI_NAMES_TRANSFORMS lab = some n)
    (hlen : schema.length < (pySplitOn ';' line).length) :
    ∃ fd, parse_fund_string schema line = .ok fd ∧
      parseFundTokens schema ((pySplitOn ';' line).take schema.length) = .ok fd := by
  set toks := pySplitOn ';' line with htoks
  have hknown' : ∀ p ∈ schema.zip toks,
      dictGet DATACLASS_AMFI_NAMES_TRANSFORMS p.1 ≠ none := by
    intro p hp
    exact hknown p.1 (List.of_mem_zip hp).1
  obtain ⟨d, hd⟩ := buildFundDict_ok_of_known (schema.zip toks) [] hknown'
  have hpresent : ∀ n ∈ fundFieldNames, dictGet d n ≠ none := by
    intro n hn
    obtain ⟨lab, hlabmem, htr⟩ := hcover n hn
    obtain ⟨i, hi⟩ := List.mem_iff_get?.mp hlabmem
    have hilt : i < schema.length := get?_lt_length hi
    obtain ⟨tok, htok⟩ : ∃ tok, toks.get? i = some tok := by
      rw [List.get?_eq_get (by omega : i < toks.length)]; exact ⟨_, rfl⟩
    have hpair : (lab, tok) ∈ schema.zip toks :=
      List.get?_mem (get?_zip' schema toks i lab tok hi htok)
    exact buildFundDict_mem_present (schema.zip toks) [] d lab tok n hd hpair htr
  obtain ⟨fd, hfd⟩ := mkFund_ok_of_present d hpresent
  refine ⟨fd, ?_, ?_⟩
  · show parseFundTokens schema toks = .ok fd
    unfold parseFundTokens
    rw [hd]
    exact hfd
  · unfold parseFundTokens
    rw [← zip_take_self schema toks, hd]
    exact hfd

/-- C10 (witness): the canonical schema with a seven-token line. -/
theorem C10_witness :
    (∀ lab ∈ canonicalLabels,
      dictGet DATACLASS_AMFI_NAMES_TRANSFORMS lab ≠ none) ∧
    canonicalLabels.length < (pySplitOn ';' "1;2;3;4;5;6;7").length ∧
    ∃ fd, parse_fund_string canonicalLabels "1;2;3;4;5;6;7" = .ok fd ∧
      parseFundTokens canonicalLabels
        ((pySplitOn ';' "1;2;3;4;5;6;7").take canonicalLabels.length) = .ok fd :=
  ⟨by decide, by decide,
    C10_theorem canonicalLabels "1;2;3;4;5;6;7" (by decide)
      (by decide) (by decide)⟩

/-! ## Scenario and termination claims about the parser -/

/-- C1 (counterexample): on the exact scenario input of the spec — with
its final empty-string line after the single-space blank — the parser
does NOT return the described hierarchy: after the data block it treats
the final empty line as a fund-house header and then runs the cursor
past the end of the line list, raising `IndexError`. -/
theorem C1_counterexample :
    parse_nav_file_lines 32 c1Input = .err .indexError := by
  rfl

/-- C1 (amended): on the scenario input with the single-space blank as
the FINAL line (no trailing line terminator, hence no final empty-string
line), the parser returns exactly the described hierarchy
Open Ended Schemes / Liquid Fund / Example Fund House / [the record],
and nothing else. -/
theorem C1_theorem :
    parse_nav_file_lines 32 c1InputAmended = .ok c1Hierarchy := by
  rfl

/-- C6 (counterexample): an input whose group-header line contains an
opening parenthesis but LACKS the closing one is accepted: the parse
returns a hierarchy (with the sub-category's last character stripped)
instead of halting with `FormatError`. -/
theorem C6_counterexample :
    parse_nav_file_lines 32 c6Input = .ok c6Hierarchy := by
  rfl

/-- C7 (code bug): the parse does NOT terminate on every input.  On the
input whose third line ("B" — a non-final line reached after the header
and separator) contains no category marker, the outer loop never
advances the cursor: the fueled run exhausts every fuel bound, i.e. the
Python loop runs forever, while the spec promises an immediate
`FormatError` halt. -/
theorem C7_theorem :
    ∀ fuel, parse_nav_file_lines fuel "A\r\n \r\nB\r\nC" = PRes.fuelOut := by
  have loop : ∀ n, outerLoop ["A"] n ⟨["A", " ", "B", "C"], 2, []⟩ = PRes.fuelOut := by
    intro n
    induction n with
    | zero => rfl
    | succ m ih => exact ih
  intro fuel
  exact loop fuel

/-- C8: an empty-string line inside the data-line loop that is not the
final line of the input is silently skipped: one step of the record loop
on such a line only advances the cursor, decodes nothing, appends no
record, and does not abort. -/
theorem C8_theorem (schema : List String) (t s h : String) (fuel : Nat)
    (L : List String) (i : Nat) (f : Hierarchy)
    (hline : L.get? i = some "") (hlast : i ≠ L.length - 1) :
    recordLoop schema t s h (fuel + 1) ⟨L, i, f⟩ =
      recordLoop schema t s h fuel ⟨L, i + 1, f⟩ := by
  have hi : i < L.length := get?_lt_length hline
  have hi1 : i + 1 < L.length := by omega
  obtain ⟨x, hx⟩ : ∃ x, L.get? (i + 1) = some x := by
    rw [List.get?_eq_get hi1]; exact ⟨_, rfl⟩
  have hne : ¬ (("" : String) = EMPTY_LINE) := by decide
  simp only [recordLoop, hline, hne, if_false, hlast, if_pos, if_true, nextLine, hx]

/-- C8 (witness): the record loop at an empty line in the middle of a
three-line list. -/
theorem C8_witness :
    ((["1;2", "", "3;4"] : List String).get? 1 = some "") ∧
    (1 ≠ (["1;2", "", "3;4"] : List String).length - 1) ∧
    recordLoop [] "t" "s" "h" 6 ⟨["1;2", "", "3;4"], 1, []⟩ =
      recordLoop [] "t" "s" "h" 5 ⟨["1;2", "", "3;4"], 2, []⟩ :=
  ⟨by decide, by decide,
    C8_theorem [] "t" "s" "h" 5 ["1;2", "", "3;4"] 1 [] (by decide) (by decide)⟩

/-! ## Stepping lemmas for the class loop -/

theorem forClasses_nil (schema : List String) (fuel : Nat) (st : PState) :
    forClasses schema fuel [] st = .ok st := rfl

theorem forClasses_cons_skip (schema : List String) (fuel : Nat) (c : String)
    (cs : List String) (st : PState) (line : String)
    (hget : st.lines.get? st.idx = some line)
    (hc : strContains line c = false) :
    forClasses schema fuel (c :: cs) st = forClasses schema fuel cs st := by
  simp only [forClasses, hget, hc, Bool.false_eq_true, if_false]

theorem forClasses_cons_noparen (schema : List String) (fuel : Nat) (c : String)
    (cs : List String) (st : PState) (line : String)
    (hget : st.lines.get? st.idx = some line)
    (hc : strContains line c = true)
    (hparen : (pySplitOn '(' line).get? 1 = none) :
    forClasses schema fuel (c :: cs) st = .err .indexError := by
  simp only [forClasses, hget, hc, if_true, hparen]

theorem forClasses_no_marker (schema : List String) (fuel : Nat)
    (cs : List String) (st : PState) (line : String)
    (hget : st.lines.get? st.idx = some line)
    (hall : ∀ c ∈ cs, strContains line c = false) :
    forClasses schema fuel cs st = .ok st := by
  induction cs with
  | nil => rfl
  | cons c cs' ih =>
    rw [forClasses_cons_skip schema fuel c cs' st line hget
      (hall c (List.mem_cons_self _ _))]
    exact ih (fun c' hc' => hall c' (List.mem_cons_of_mem _ hc'))

/-- C6 (amended): a group-header line lacking the OPENING parenthesis
makes the parse halt at once with the structural error (`IndexError`
from `scheme_type_str[1]`, the code's form of the spec's `FormatError`);
a group-header lacking only the closing parenthesis is accepted with the
last character of its sub-category text stripped (see the
counterexample). -/
theorem C6_theorem (hline g r : String) (rest : List String) (fuel : Nat)
    (hmark : ∃ c ∈ SCHEME_TYPE_CLASSES, strContains g c = true)
    (hparen : (pySplitOn '(' g).get? 1 = none) :
    parseLines (fuel + 1) ([hline, EMPTY_LINE, g, r] ++ rest) = .err .indexError := by
  have hg2 : (([hline, EMPTY_LINE, g, r] ++ rest) : List String).get? 2 = some g := rfl
  show outerLoop (pySplitOn ';' hline) (fuel + 1)
      ⟨[hline, EMPTY_LINE, g, r] ++ rest, 2, []⟩ = .err .indexError
  have hlen : ([hline, EMPTY_LINE, g, r] ++ rest).length = 4 + rest.length := by
    simp
    omega
  have hfc : ∀ cs, (∃ c ∈ cs, strContains g c = true) →
      forClasses (pySplitOn ';' hline) fuel cs
        ⟨[hline, EMPTY_LINE, g, r] ++ rest, 2, []⟩ = .err .indexError := by
    intro cs
    induction cs with
    | nil => rintro ⟨c, hc, _⟩; simp at hc
    | cons c cs' ih =>
      rintro ⟨c0, hc0, hcont0⟩
      cases hc : strContains g c with
      | true => exact forClasses_cons_noparen _ fuel c cs' _ g hg2 hc hparen
      | false =>
        rw [forClasses_cons_skip _ fuel c cs' _ g hg2 hc]
        rcases List.mem_cons.mp hc0 with he | hmem
        · subst he; rw [hc] at hcont0; cases hcont0
        · exact ih ⟨c0, hmem, hcont0⟩
  simp only [outerLoop]
  rw [if_pos (by rw [hlen]; omega), if_neg (by rw [hlen]; omega),
    hfc SCHEME_TYPE_CLASSES hmark]

/-- C6 (witness): a group header containing a category marker but no
parenthesis at all, followed by further lines. -/
theorem C6_witness :
    (∃ c ∈ SCHEME_TYPE_CLASSES,
      strContains "Open Ended Schemes Liquid" c = true) ∧
    ((pySplitOn '(' "Open Ended Schemes Liquid").get? 1 = none) ∧
    parseLines 10 (["H", EMPTY_LINE, "Open Ended Schemes Liquid", "Org"] ++ [" "]) =
      .err .indexError :=
  ⟨by decide, by decide,
    C6_theorem "H" "Open Ended Schemes Liquid" "Org" [" "] 9 (by decide) (by decide)⟩

/-! ## Trace lemmas: the record loop over a well-formed segment -/

theorem get?_append_self {α : Type} (P : List α) (a : α) (X : List α) :
    (P ++ a :: X).get? P.length = some a := by
  rw [List.get?_append_right (le_refl _)]
  simp

theorem recordOk_decode {schema : List String} {r : String}
    (h : recordOk schema r) (hne : r ≠ "") :
    ∃ fd, parse_fund_string schema r = .ok fd := by
  obtain ⟨_, h2⟩ := h
  have h3 := h2 hne
  cases hp : parse_fund_string schema r with
  | ok fd => exact ⟨fd, rfl⟩
  | error e => rw [hp] at h3; simp [Except.toOption] at h3

theorem decodedRecords_nil (schema : List String) :
    decodedRecords schema [] = [] := rfl

theorem decodedRecords_cons_empty (schema : List String) (rs : List String) :
    decodedRecords schema ("" :: rs) = decodedRecords schema rs := by
  simp [decodedRecords]

theorem decodedRecords_cons (schema : List String) (r : String) (rs : List String)
    (fd : Fund) (hne : r ≠ "") (hd : parse_fund_string schema r = .ok fd) :
    decodedRecords schema (r :: rs) = fd :: decodedRecords schema rs := by
  simp [decodedRecords, hne, hd, Except.toOption]

theorem appendFunds_nil (H : Hierarchy) (t s h : String) :
    appendFunds H t s h [] = H := rfl

theorem appendFunds_cons (H : Hierarchy) (t s h : String) (fd : Fund)
    (fds : List Fund) :
    appendFunds H t s h (fd :: fds) = appendFunds (appendFund H t s h fd) t s h fds :=
  rfl

theorem recordLoop_run (schema : List String) (t s h : String)
    (rs : List String) :
    ∀ (P Q : List String) (f : Hierarchy) (fuel : Nat),
      rs.length + 1 ≤ fuel →
      (∀ r ∈ rs, recordOk schema r) →
      recordLoop schema t s h fuel ⟨P ++ rs ++ EMPTY_LINE :: Q, P.length, f⟩ =
        .ok ⟨P ++ rs ++ EMPTY_LINE :: Q, P.length + rs.length,
          appendFunds f t s h (decodedRecords schema rs)⟩ := by
  induction rs with
  | nil =>
    intro P Q f fuel hfuel _
    obtain ⟨m, rfl⟩ : ∃ m, fuel = m + 1 := ⟨fuel - 1, by omega⟩
    have hget : ((P ++ [] ++ EMPTY_LINE :: Q) : List String).get? P.length =
        some EMPTY_LINE := by
      simpa using get?_append_self P EMPTY_LINE Q
    simp only [recordLoop, hget]
    rw [if_pos trivial]
    rfl
  | cons r rs' ih =>
    intro P Q f fuel hfuel hok
    obtain ⟨m, rfl⟩ : ∃ m, fuel = m + 1 := ⟨fuel - 1, by omega⟩
    have hm : rs'.length + 1 ≤ m := by
      simp only [List.length_cons] at hfuel
      omega
    have hget : ((P ++ (r :: rs') ++ EMPTY_LINE :: Q) : List String).get? P.length =
        some r := by
      simpa using get?_append_self P r (rs' ++ EMPTY_LINE :: Q)
    have hrok := hok r (List.mem_cons_self _ _)
    have hrne : r ≠ EMPTY_LINE := hrok.1
    have hlen : ((P ++ (r :: rs') ++ EMPTY_LINE :: Q) : List String).length =
        P.length + rs'.length + Q.length + 2 := by
      simp
      omega
    have hnotlast : ¬ (P.length =
        ((P ++ (r :: rs') ++ EMPTY_LINE :: Q) : List String).length - 1) := by
      rw [hlen]; omega
    have hnext : ∀ f' : Hierarchy,
        nextLine ⟨P ++ (r :: rs') ++ EMPTY_LINE :: Q, P.length, f'⟩ =
          .ok ⟨P ++ (r :: rs') ++ EMPTY_LINE :: Q, P.length + 1, f'⟩ := by
      intro f'
      have hg1 : ((P ++ (r :: rs') ++ EMPTY_LINE :: Q) : List String).get?
          (P.length + 1) = (rs' ++ EMPTY_LINE :: Q).get? 0 := by
        have h1 : ((P ++ [r]) : List String).length = P.length + 1 := by simp
        calc ((P ++ (r :: rs') ++ EMPTY_LINE :: Q) : List String).get? (P.length + 1)
            = (((P ++ [r]) ++ (rs' ++ EMPTY_LINE :: Q)) : List String).get?
                (P.length + 1) := by simp
          _ = (rs' ++ EMPTY_LINE :: Q).get? 0 := by
                rw [← h1, List.get?_append_right (le_refl _)]
                simp
      obtain ⟨x, hx⟩ : ∃ x, (rs' ++ EMPTY_LINE :: Q).get? 0 = some x := by
        cases rs' with
        | nil => exact ⟨EMPTY_LINE, rfl⟩
        | cons a l => exact ⟨a, rfl⟩
      simp only [nextLine, hg1, hx]
    have hstep : recordLoop schema t s h (m + 1)
        ⟨P ++ (r :: rs') ++ EMPTY_LINE :: Q, P.length, f⟩ =
        recordLoop schema t s h m
          ⟨P ++ (r :: rs') ++ EMPTY_LINE :: Q, P.length + 1,
            appendFunds f t s h (decodedRecords schema [r])⟩ := by
      by_cases hre : r = ""
      · subst hre
        simp only [recordLoop, hget]
        rw [if_neg hrne, if_neg hnotlast, if_pos trivial]
        simp only [hnext]
        rfl
      · obtain ⟨fd, hfd⟩ := recordOk_decode hrok hre
        simp only [recordLoop, hget]
        rw [if_neg hrne, if_neg hnotlast, if_neg hre, hfd]
        simp only [hnext]
        rw [decodedRecords_cons schema r [] fd hre hfd]
        rfl
    rw [hstep]
    have hassoc : (P ++ (r :: rs') ++ EMPTY_LINE :: Q : List String) =
        (P ++ [r]) ++ rs' ++ EMPTY_LINE :: Q := by simp
    have hlen1 : P.length + 1 = ((P ++ [r]) : List String).length := by simp
    rw [hassoc, hlen1, ih (P ++ [r]) Q _ m hm
      (fun r' hr' => hok r' (List.mem_cons_of_mem _ hr'))]
    have hidx : ((P ++ [r]) : List String).length + rs'.length =
        P.length + (r :: rs').length := by simp; omega
    rw [hidx]
    have hfunds : appendFunds (appendFunds f t s h (decodedRecords schema [r]))
        t s h (decodedRecords schema rs') =
        appendFunds f t s h (decodedRecords schema (r :: rs')) := by
      by_cases hre : r = ""
      · subst hre
        rw [decodedRecords_cons_empty]
        rfl
      · obtain ⟨fd, hfd⟩ := recordOk_decode hrok hre
        rw [decodedRecords_cons schema r [] fd hre hfd,
          decodedRecords_cons schema r rs' fd hre hfd]
        rfl
    rw [hfunds]

/-! ## Trace lemmas: the organisation loop -/

theorem get?_append_start {α : Type} (P X : List α) :
    (P ++ X).get? P.length = X.get? 0 := by
  rw [List.get?_append_right (le_refl _)]
  simp

theorem orgLoop_exit (schema : List String) (t s : String) (m : Nat)
    (st : PState) (stop : String)
    (hget : st.lines.get? st.idx = some stop)
    (hstop : SCHEME_TYPE_CLASSES.all (fun c => !(strContains stop c)) = false) :
    orgLoop schema t s (m + 1) st = .ok st := by
  simp only [orgLoop, hget, hstop, Bool.false_eq_true, if_false]

theorem orgLoop_step (schema : List String) (t s : String) (o : OrgBlock)
    (P Z : List String) (f : Hierarchy) (m : Nat)
    (hok : orgOk schema o)
    (hfm : o.records.length + 1 ≤ m)
    (hZ : Z ≠ []) :
    orgLoop schema t s (m + 1) ⟨P ++ renderOrg o ++ Z, P.length, f⟩ =
      orgLoop schema t s m
        ⟨P ++ renderOrg o ++ Z, (P ++ renderOrg o).length, addOrg schema t s f o⟩ := by
  have hget : ((P ++ renderOrg o ++ Z) : List String).get? P.length = some o.name := by
    simpa [renderOrg] using
      get?_append_self P o.name (EMPTY_LINE :: (o.records ++ [EMPTY_LINE]) ++ Z)
  have hg1 : ((P ++ renderOrg o ++ Z) : List String).get? (P.length + 1) =
      some EMPTY_LINE := by
    simpa [renderOrg] using
      get?_append_self (P ++ [o.name]) EMPTY_LINE ((o.records ++ [EMPTY_LINE]) ++ Z)
  obtain ⟨x2, hg2⟩ : ∃ x2, ((P ++ renderOrg o ++ Z) : List String).get?
      (P.length + 2) = some x2 := by
    have h0 : ((P ++ renderOrg o ++ Z) : List String).get? (P.length + 2) =
        ((o.records ++ [EMPTY_LINE]) ++ Z).get? 0 := by
      simpa [renderOrg] using
        get?_append_start (P ++ [o.name, EMPTY_LINE]) ((o.records ++ [EMPTY_LINE]) ++ Z)
    cases hr : o.records with
    | nil => exact ⟨EMPTY_LINE, by rw [h0, hr]; rfl⟩
    | cons a l => exact ⟨a, by rw [h0, hr]; rfl⟩
  have hshape : (P ++ renderOrg o ++ Z : List String) =
      (P ++ [o.name, EMPTY_LINE]) ++ o.records ++ EMPTY_LINE :: Z := by
    simp [renderOrg]
  have hlenP2 : ((P ++ [o.name, EMPTY_LINE]) : List String).length = P.length + 2 := by
    simp
  have hrec := recordLoop_run schema t s o.name o.records
    (P ++ [o.name, EMPTY_LINE]) Z (ensureOrg f t s o.name) m hfm hok.2
  rw [hlenP2] at hrec
  have hlen : ((P ++ renderOrg o ++ Z) : List String).length =
      P.length + o.records.length + 3 + Z.length := by
    simp [renderOrg]
    omega
  have hZpos : 1 ≤ Z.length := by
    cases Z with
    | nil => exact absurd rfl hZ
    | cons a l => simp
  have hnotlast : ¬ (P.length + 2 + o.records.length =
      ((P ++ renderOrg o ++ Z) : List String).length - 1) := by
    rw [hlen]; omega
  obtain ⟨z, hz⟩ : ∃ z, ((P ++ renderOrg o ++ Z) : List String).get?
      (P.length + 2 + o.records.length + 1) = some z := by
    have h0 : ((P ++ renderOrg o ++ Z) : List String).get?
        (P.length + o.records.length + 3) = Z.get? 0 := by
      have h1 : ((P ++ renderOrg o) : List String).length =
          P.length + o.records.length + 3 := by
        simp [renderOrg]
        omega
      have h2 := get?_append_start (P ++ renderOrg o) Z
      rw [h1] at h2
      exact h2
    cases Z with
    | nil => exact absurd rfl hZ
    | cons a l =>
      refine ⟨a, ?_⟩
      have he : P.length + 2 + o.records.length + 1 =
          P.length + o.records.length + 3 := by omega
      rw [he, h0]
      rfl
  -- one unfolding of the organisation loop
  simp only [orgLoop, hget]
  rw [if_pos hok.1]
  simp only [nextLine, hg1, hg2]
  rw [show (⟨P ++ renderOrg o ++ Z, P.length + 1 + 1,
      ensureOrg f t s o.name⟩ : PState) =
    ⟨(P ++ [o.name, EMPTY_LINE]) ++ o.records ++ EMPTY_LINE :: Z, P.length + 2,
      ensureOrg f t s o.name⟩ from by rw [← hshape]]
  rw [hrec]
  simp only []
  rw [← hshape]
  rw [if_neg hnotlast]
  simp only [nextLine, hz]
  have hfin : P.length + 2 + o.records.length + 1 =
      ((P ++ renderOrg o) : List String).length := by
    simp [renderOrg]
    omega
  rw [hfin]
  rfl

theorem orgsCost_pos (orgs : List OrgBlock) : 1 ≤ orgsCost orgs :=
  Nat.le_add_left 1 _

theorem orgLoop_run_stop (schema : List String) (t s : String)
    (orgs : List OrgBlock) :
    ∀ (P : List String) (stop : String) (Q : List String) (f : Hierarchy) (fuel : Nat),
      orgsCost orgs ≤ fuel →
      (∀ o ∈ orgs, orgOk schema o) →
      SCHEME_TYPE_CLASSES.all (fun c => !(strContains stop c)) = false →
      orgLoop schema t s fuel
          ⟨P ++ (orgs.map renderOrg).flatten ++ stop :: Q, P.length, f⟩ =
        .ok ⟨P ++ (orgs.map renderOrg).flatten ++ stop :: Q,
          P.length + ((orgs.map renderOrg).flatten).length,
          orgs.foldl (addOrg schema t s) f⟩ := by
  induction orgs with
  | nil =>
    intro P stop Q f fuel hfuel _ hstop
    obtain ⟨m, rfl⟩ : ∃ m, fuel = m + 1 :=
      ⟨fuel - 1, by have hp := Nat.le_trans (orgsCost_pos _) hfuel; omega⟩
    have hget : ((P ++ (([] : List OrgBlock).map renderOrg).flatten ++ stop :: Q) :
        List String).get? P.length = some stop := by
      simpa using get?_append_self P stop Q
    rw [orgLoop_exit schema t s m _ stop hget hstop]
    rfl
  | cons o orgs' ih =>
    intro P stop Q f fuel hfuel hok hstop
    obtain ⟨m, rfl⟩ : ∃ m, fuel = m + 1 :=
      ⟨fuel - 1, by have hp := Nat.le_trans (orgsCost_pos _) hfuel; omega⟩
    have hcost : orgsCost orgs' ≤ m := by
      simp only [orgsCost, orgCost, List.map_cons, List.sum_cons] at hfuel ⊢
      omega
    have hfm : o.records.length + 1 ≤ m := by
      simp only [orgsCost, orgCost, List.map_cons, List.sum_cons] at hfuel
      omega
    have hshape : (P ++ ((o :: orgs').map renderOrg).flatten ++ stop :: Q :
        List String) =
        P ++ renderOrg o ++ ((orgs'.map renderOrg).flatten ++ stop :: Q) := by
      simp
    have hZ : ((orgs'.map renderOrg).flatten ++ stop :: Q : List String) ≠ [] := by
      simp
    rw [hshape, orgLoop_step schema t s o P _ f m
      (hok o (List.mem_cons_self _ _)) hfm hZ]
    have hP' : ((P ++ renderOrg o) : List String) ++
        ((orgs'.map renderOrg).flatten ++ stop :: Q) =
        (P ++ renderOrg o) ++ (orgs'.map renderOrg).flatten ++ stop :: Q := by
      simp
    rw [hP', ih (P ++ renderOrg o) stop Q (addOrg schema t s f o) m hcost
      (fun o' ho' => hok o' (List.mem_cons_of_mem _ ho')) hstop]
    have hidx : ((P ++ renderOrg o) : List String).length +
        ((orgs'.map renderOrg).flatten).length =
        P.length + (((o :: orgs').map renderOrg).flatten).length := by
      simp
      omega
    rw [hidx]
    have hlines : ((P ++ renderOrg o) : List String) ++
        (orgs'.map renderOrg).flatten ++ stop :: Q =
        P ++ (((o :: orgs').map renderOrg).flatten) ++ stop :: Q := by
      simp
    rw [hlines]
    rfl

theorem orgLoop_last (schema : List String) (t s : String) (o : OrgBlock)
    (P : List String) (f : Hierarchy) (m : Nat)
    (hok : orgOk schema o)
    (hfm : o.records.length + 1 ≤ m) :
    orgLoop schema t s (m + 1) ⟨P ++ renderOrg o, P.length, f⟩ =
      .ok ⟨P ++ renderOrg o, (P ++ renderOrg o).length - 1, addOrg schema t s f o⟩ := by
  have hget : ((P ++ renderOrg o) : List String).get? P.length = some o.name := by
    simpa [renderOrg] using
      get?_append_self P o.name (EMPTY_LINE :: (o.records ++ [EMPTY_LINE]))
  have hg1 : ((P ++ renderOrg o) : List String).get? (P.length + 1) =
      some EMPTY_LINE := by
    simpa [renderOrg] using
      get?_append_self (P ++ [o.name]) EMPTY_LINE (o.records ++ [EMPTY_LINE])
  obtain ⟨x2, hg2⟩ : ∃ x2, ((P ++ renderOrg o) : List String).get?
      (P.length + 2) = some x2 := by
    have h0 : ((P ++ renderOrg o) : List String).get? (P.length + 2) =
        (o.records ++ [EMPTY_LINE]).get? 0 := by
      simpa [renderOrg] using
        get?_append_start (P ++ [o.name, EMPTY_LINE]) (o.records ++ [EMPTY_LINE])
    cases hr : o.records with
    | nil => exact ⟨EMPTY_LINE, by rw [h0, hr]; rfl⟩
    | cons a l => exact ⟨a, by rw [h0, hr]; rfl⟩
  have hshape : (P ++ renderOrg o : List String) =
      (P ++ [o.name, EMPTY_LINE]) ++ o.records ++ EMPTY_LINE :: [] := by
    simp [renderOrg]
  have hlenP2 : ((P ++ [o.name, EMPTY_LINE]) : List String).length = P.length + 2 := by
    simp
  have hrec := recordLoop_run schema t s o.name o.records
    (P ++ [o.name, EMPTY_LINE]) [] (ensureOrg f t s o.name) m hfm hok.2
  rw [hlenP2] at hrec
  have hlen : ((P ++ renderOrg o) : List String).length =
      P.length + o.records.length + 3 := by
    simp [renderOrg]
    omega
  have hlast : P.length + 2 + o.records.length =
      ((P ++ renderOrg o) : List String).length - 1 := by
    rw [hlen]; omega
  simp only [orgLoop, hget]
  rw [if_pos hok.1]
  simp only [nextLine, hg1, hg2]
  rw [show (⟨P ++ renderOrg o, P.length + 1 + 1,
      ensureOrg f t s o.name⟩ : PState) =
    ⟨(P ++ [o.name, EMPTY_LINE]) ++ o.records ++ EMPTY_LINE :: [], P.length + 2,
      ensureOrg f t s o.name⟩ from by rw [← hshape]]
  rw [hrec]
  simp only []
  rw [← hshape]
  rw [if_pos hlast, hlast]
  rfl

theorem orgLoop_run_end (schema : List String) (t s : String)
    (orgs : List OrgBlock) :
    ∀ (P : List String) (f : Hierarchy) (fuel : Nat),
      orgs ≠ [] →
      orgsCost orgs ≤ fuel →
      (∀ o ∈ orgs, orgOk schema o) →
      orgLoop schema t s fuel
          ⟨P ++ (orgs.map renderOrg).flatten, P.length, f⟩ =
        .ok ⟨P ++ (orgs.map renderOrg).flatten,
          (P ++ (orgs.map renderOrg).flatten).length - 1,
          orgs.foldl (addOrg schema t s) f⟩ := by
  induction orgs with
  | nil => intro P f fuel hne; exact absurd rfl hne
  | cons o orgs' ih =>
    intro P f fuel _ hfuel hok
    obtain ⟨m, rfl⟩ : ∃ m, fuel = m + 1 :=
      ⟨fuel - 1, by have hp := Nat.le_trans (orgsCost_pos _) hfuel; omega⟩
    have hfm : o.records.length + 1 ≤ m := by
      simp only [orgsCost, orgCost, List.map_cons, List.sum_cons] at hfuel
      omega
    cases horgs' : orgs' with
    | nil =>
      subst horgs'
      have hshape : (P ++ ((([o] : List OrgBlock).map renderOrg).flatten) :
          List String) = P ++ renderOrg o := by
        simp
      rw [hshape, orgLoop_last schema t s o P f m (hok o (List.mem_cons_self _ _)) hfm]
      rfl
    | cons o2 rest =>
      subst horgs'
      have hcost : orgsCost (o2 :: rest) ≤ m := by
        simp only [orgsCost, orgCost, List.map_cons, List.sum_cons] at hfuel ⊢
        omega
      have hshape : (P ++ (((o :: o2 :: rest).map renderOrg).flatten) :
          List String) =
          P ++ renderOrg o ++ (((o2 :: rest).map renderOrg).flatten) := by
        simp
      have hZ : ((((o2 :: rest).map renderOrg).flatten) : List String) ≠ [] := by
        simp [renderOrg]
      rw [hshape, orgLoop_step schema t s o P _ f m
        (hok o (List.mem_cons_self _ _)) hfm hZ]
      rw [ih (P ++ renderOrg o) (addOrg schema t s f o) m (by simp) hcost
        (fun o' ho' => hok o' (List.mem_cons_of_mem _ ho'))]
      have hlines : ((P ++ renderOrg o) : List String) ++
          (((o2 :: rest).map renderOrg).flatten) =
          P ++ (((o :: o2 :: rest).map renderOrg).flatten) := by
        simp
      rw [hlines]
      rfl

/-! ## Trace lemmas: the class loop and the outer loop -/

theorem all_not_of_any {l : List String} {p : String → Bool}
    (h : l.any p = true) : l.all (fun x => !(p x)) = false := by
  by_contra hne
  have hall : l.all (fun x => !(p x)) = true := by
    cases hv : l.all (fun x => !(p x)) with
    | true => rfl
    | false => exact absurd hv hne
  obtain ⟨x, hx, hpx⟩ := List.any_eq_true.mp h
  have h2 := List.all_eq_true.mp hall x hx
  rw [hpx] at h2
  simp at h2

theorem emptyline_no_marker :
    ∀ c ∈ SCHEME_TYPE_CLASSES, strContains EMPTY_LINE c = false := by
  decide

theorem orgSeg_last (orgs : List OrgBlock) :
    orgs ≠ [] → ∃ W, (orgs.map renderOrg).flatten = W ++ [EMPTY_LINE] := by
  induction orgs with
  | nil => intro h; exact absurd rfl h
  | cons o rest ih =>
    intro _
    cases hr : rest with
    | nil =>
      refine ⟨o.name :: EMPTY_LINE :: o.records, ?_⟩
      simp [renderOrg]
    | cons o2 rest' =>
      obtain ⟨W, hW⟩ := ih (by rw [hr]; simp)
      rw [hr] at hW
      refine ⟨renderOrg o ++ W, ?_⟩
      calc ((o :: o2 :: rest').map renderOrg).flatten
          = renderOrg o ++ ((o2 :: rest').map renderOrg).flatten := by simp
        _ = renderOrg o ++ (W ++ [EMPTY_LINE]) := by rw [hW]
        _ = (renderOrg o ++ W) ++ [EMPTY_LINE] := by simp

theorem groupsCost_head_le (g : GroupBlock) (gs : List GroupBlock) :
    orgsCost g.orgs ≤ groupsCost (g :: gs) := by
  simp only [groupsCost, List.map_cons, List.sum_cons]
  omega

theorem groupsCost_tail_le (g : GroupBlock) (gs : List GroupBlock) :
    groupsCost gs ≤ groupsCost (g :: gs) := by
  simp only [groupsCost, List.map_cons, List.sum_cons]
  omega

theorem forClasses_run (schema : List String) (cs : List String) :
    ∀ (g0 : GroupBlock) (grest : List GroupBlock) (P : List String)
      (f : Hierarchy) (fuel : Nat),
      groupsCost (g0 :: grest) ≤ fuel →
      (∀ g ∈ g0 :: grest, groupOk schema g) →
      (∀ c ∈ cs, strContains EMPTY_LINE c = false) →
      ∃ m, m ≤ (g0 :: grest).length ∧
        ((∃ c ∈ cs, strContains g0.header c = true) → 1 ≤ m) ∧
        forClasses schema fuel cs
            ⟨P ++ (((g0 :: grest).map renderGroup).flatten), P.length, f⟩ =
          .ok ⟨P ++ (((g0 :: grest).map renderGroup).flatten),
            (if m = (g0 :: grest).length
             then (P ++ (((g0 :: grest).map renderGroup).flatten)).length - 1
             else P.length + ((((g0 :: grest).take m).map renderGroup).flatten).length),
            ((g0 :: grest).take m).foldl (addGroup schema) f⟩ := by
  induction cs with
  | nil =>
    intro g0 grest P f fuel hfuel hok hemp
    refine ⟨0, by simp, by rintro ⟨c, hc, _⟩; simp at hc, ?_⟩
    rw [forClasses_nil]
    rw [if_neg (by simp : ¬ (0 = (g0 :: grest).length))]
    rfl
  | cons c cs' ih =>
    intro g0 grest P f fuel hfuel hok hemp
    have hget : ((P ++ (((g0 :: grest).map renderGroup).flatten)) :
        List String).get? P.length = some g0.header := by
      simpa [renderGroup] using get?_append_self P g0.header
        ((EMPTY_LINE :: (g0.orgs.map renderOrg).flatten) ++
          ((grest.map renderGroup).flatten))
    cases hc : strContains g0.header c with
    | false =>
      obtain ⟨m, hm1, hm2, hm3⟩ := ih g0 grest P f fuel hfuel hok
        (fun c' hc' => hemp c' (List.mem_cons_of_mem _ hc'))
      refine ⟨m, hm1, ?_, ?_⟩
      · rintro ⟨c0, hc0, hcont⟩
        rcases List.mem_cons.mp hc0 with he | hmem
        · subst he; rw [hc] at hcont; cases hcont
        · exact hm2 ⟨c0, hmem, hcont⟩
      · rw [forClasses_cons_skip schema fuel c cs' _ g0.header hget hc]
        exact hm3
    | true =>
      obtain ⟨hany, hparen, horgs, horgok⟩ := hok g0 (List.mem_cons_self _ _)
      obtain ⟨second, hsecond⟩ : ∃ x, (pySplitOn '(' g0.header).get? 1 = some x := by
        cases hp : (pySplitOn '(' g0.header).get? 1 with
        | none => exact absurd hp hparen
        | some x => exact ⟨x, rfl⟩
      have ht0 : (groupKeysOf g0).1 = (pySplitOn '(' g0.header).headI := rfl
      have hsecond2 : (pySplitOn '(' g0.header)[1]? = some second := by
        rw [← List.get?_eq_getElem?]
        exact hsecond
      have hs0 : (groupKeysOf g0).2 = pyDropLast second := by
        simp [groupKeysOf, hsecond2]
      -- the two blank-skipping cursor advances
      have hg1 : ((P ++ (((g0 :: grest).map renderGroup).flatten)) :
          List String).get? (P.length + 1) = some EMPTY_LINE := by
        simpa [renderGroup] using get?_append_self (P ++ [g0.header]) EMPTY_LINE
          ((g0.orgs.map renderOrg).flatten ++ ((grest.map renderGroup).flatten))
      obtain ⟨o0, orest, ho0⟩ : ∃ o0 orest, g0.orgs = o0 :: orest := by
        cases ho : g0.orgs with
        | nil => exact absurd ho horgs
        | cons a l => exact ⟨a, l, rfl⟩
      have hg2 : ((P ++ (((g0 :: grest).map renderGroup).flatten)) :
          List String).get? (P.length + 2) = some o0.name := by
        have h0 := get?_append_start (P ++ [g0.header, EMPTY_LINE])
          ((g0.orgs.map renderOrg).flatten ++ ((grest.map renderGroup).flatten))
        rw [ho0] at h0
        simpa [renderGroup, ho0] using h0
      -- one unfolding of the class loop, taking the matching branch
      have hunfold : forClasses schema fuel (c :: cs')
          ⟨P ++ (((g0 :: grest).map renderGroup).flatten), P.length, f⟩ =
          match orgLoop schema (pySplitOn '(' g0.header).headI (pyDropLast second)
              fuel ⟨P ++ (((g0 :: grest).map renderGroup).flatten), P.length + 2,
                ensureSub (ensureType f (pySplitOn '(' g0.header).headI)
                  (pySplitOn '(' g0.header).headI (pyDropLast second)⟩ with
          | .fuelOut => .fuelOut
          | .err e => .err e
          | .ok st3 => forClasses schema fuel cs' st3 := by
        simp only [forClasses, hget, hc, if_true, hsecond]
        simp only [nextLine, hg1, hg2]
      have haddg : ∀ H : Hierarchy,
          g0.orgs.foldl
            (addOrg schema ((pySplitOn '(' g0.header).headI) (pyDropLast second))
            (ensureSub (ensureType H ((pySplitOn '(' g0.header).headI))
              ((pySplitOn '(' g0.header).headI) (pyDropLast second)) =
          addGroup schema H g0 := by
        intro H
        rw [addGroup, ← ht0, ← hs0]
      have hlen2 : ((P ++ [g0.header, EMPTY_LINE]) : List String).length =
          P.length + 2 := by simp
      cases grest with
      | nil =>
        refine ⟨1, by simp, fun _ => le_refl 1, ?_⟩
        rw [hunfold]
        have hrun := orgLoop_run_end schema ((pySplitOn '(' g0.header).headI)
          (pyDropLast second) g0.orgs (P ++ [g0.header, EMPTY_LINE])
          (ensureSub (ensureType f ((pySplitOn '(' g0.header).headI))
            ((pySplitOn '(' g0.header).headI) (pyDropLast second)) fuel horgs
          (le_trans (groupsCost_head_le g0 []) hfuel) horgok
        rw [hlen2] at hrun
        have hshape : (((P ++ [g0.header, EMPTY_LINE]) ++
            ((g0.orgs.map renderOrg).flatten)) : List String) =
            P ++ ((([g0] : List GroupBlock).map renderGroup).flatten) := by
          simp [renderGroup]
        rw [hshape] at hrun
        rw [hrun]
        obtain ⟨W, hW⟩ := orgSeg_last g0.orgs horgs
        have hWshape : (P ++ ((([g0] : List GroupBlock).map renderGroup).flatten) :
            List String) = (P ++ [g0.header, EMPTY_LINE] ++ W) ++ [EMPTY_LINE] := by
          simp [renderGroup, hW]
        have hlast : (P ++ ((([g0] : List GroupBlock).map renderGroup).flatten) :
            List String).get?
            ((P ++ (([g0].map renderGroup).flatten)).length - 1) = some EMPTY_LINE := by
          rw [hWshape]
          have h2 := get?_append_self (P ++ [g0.header, EMPTY_LINE] ++ W) EMPTY_LINE []
          have hv : (((P ++ [g0.header, EMPTY_LINE] ++ W) ++ [EMPTY_LINE]) :
              List String).length - 1 = (P ++ [g0.header, EMPTY_LINE] ++ W).length := by
            simp
          rw [hv]
          simpa using h2
        simp only []
        rw [forClasses_no_marker schema fuel cs' _ EMPTY_LINE hlast
          (fun c' hc' => hemp c' (List.mem_cons_of_mem _ hc'))]
        rw [if_pos (show (1 : Nat) = ([g0] : List GroupBlock).length from rfl)]
        rw [show (([g0] : List GroupBlock).take 1) = [g0] from rfl]
        rw [show (([g0] : List GroupBlock).foldl (addGroup schema) f) =
          addGroup schema f g0 from rfl]
        rw [haddg f]
      | cons g2 grest' =>
        have hstop : SCHEME_TYPE_CLASSES.all
            (fun cc => !(strContains g2.header cc)) = false :=
          all_not_of_any (hok g2 (by simp)).1
        have hrun := orgLoop_run_stop schema ((pySplitOn '(' g0.header).headI)
          (pyDropLast second) g0.orgs (P ++ [g0.header, EMPTY_LINE]) g2.header
          (EMPTY_LINE :: ((g2.orgs.map renderOrg).flatten ++
            ((grest'.map renderGroup).flatten)))
          (ensureSub (ensureType f ((pySplitOn '(' g0.header).headI))
            ((pySplitOn '(' g0.header).headI) (pyDropLast second)) fuel
          (le_trans (groupsCost_head_le g0 _) hfuel) horgok hstop
        rw [hlen2] at hrun
        have hshape : (((P ++ [g0.header, EMPTY_LINE]) ++
            ((g0.orgs.map renderOrg).flatten) ++ g2.header ::
              (EMPTY_LINE :: ((g2.orgs.map renderOrg).flatten ++
                ((grest'.map renderGroup).flatten)))) : List String) =
            P ++ (((g0 :: g2 :: grest').map renderGroup).flatten) := by
          simp [renderGroup]
        rw [hshape] at hrun
        obtain ⟨m', hm'1, hm'2, hm'3⟩ := ih g2 grest' (P ++ renderGroup g0)
          (addGroup schema f g0) fuel
          (le_trans (groupsCost_tail_le g0 _) hfuel)
          (fun g hg => hok g (List.mem_cons_of_mem _ hg))
          (fun c' hc' => hemp c' (List.mem_cons_of_mem _ hc'))
        have hlines' : ((P ++ renderGroup g0) ++
            (((g2 :: grest').map renderGroup).flatten) : List String) =
            P ++ (((g0 :: g2 :: grest').map renderGroup).flatten) := by
          simp
        have hidx' : ((P ++ renderGroup g0) : List String).length =
            P.length + 2 + ((g0.orgs.map renderOrg).flatten).length := by
          simp [renderGroup]
          omega
        rw [hlines', hidx'] at hm'3
        refine ⟨m' + 1, ?_, fun _ => by omega, ?_⟩
        · have h1 := hm'1
          simp only [List.length_cons] at h1 ⊢
          omega
        · rw [hunfold, hrun]
          simp only []
          rw [← haddg f] at hm'3
          rw [hm'3, haddg f]
          have hfold : ((g2 :: grest').take m').foldl (addGroup schema)
              (addGroup schema f g0) =
              ((g0 :: g2 :: grest').take (m' + 1)).foldl (addGroup schema) f := by
            rfl
          rw [hfold]
          by_cases hme : m' = (g2 :: grest').length
          · rw [if_pos hme, if_pos (by simp [hme])]
          · rw [if_neg hme, if_neg (by simp only [List.length_cons] at *; omega)]
            have hidx2 : P.length + 2 + ((g0.orgs.map renderOrg).flatten).length +
                ((((g2 :: grest').take m').map renderGroup).flatten).length =
                P.length +
                  ((((g0 :: g2 :: grest').take (m' + 1)).map renderGroup).flatten).length := by
              simp [renderGroup]
              omega
            rw [hidx2]

theorem groupsCost_drop_le (gs : List GroupBlock) :
    ∀ m, groupsCost (gs.drop m) ≤ groupsCost gs := by
  induction gs with
  | nil => intro m; cases m <;> simp
  | cons g rest ih =>
    intro m
    cases m with
    | zero => exact le_refl _
    | succ m' => exact le_trans (ih m') (groupsCost_tail_le g rest)

theorem renderGroup_len2 (g : GroupBlock) : 2 ≤ (renderGroup g).length := by
  simp [renderGroup]

theorem outerLoop_run (schema : List String) :
    ∀ (n : Nat) (gs' : List GroupBlock) (P : List String) (f : Hierarchy) (fuel : Nat),
      gs'.length ≤ n →
      gs' ≠ [] →
      outerCost gs' ≤ fuel →
      (∀ g ∈ gs', groupOk schema g) →
      outerLoop schema fuel ⟨P ++ ((gs'.map renderGroup).flatten), P.length, f⟩ =
        .ok (gs'.foldl (addGroup schema) f) := by
  intro n
  induction n with
  | zero =>
    intro gs' P f fuel hn hne
    cases gs' with
    | nil => exact fun _ _ => absurd rfl hne
    | cons g l => simp at hn
  | succ n ih =>
    intro gs' P f fuel hn hne hfuel hok
    obtain ⟨g0, grest, rfl⟩ : ∃ g0 grest, gs' = g0 :: grest := by
      cases gs' with
      | nil => exact absurd rfl hne
      | cons g l => exact ⟨g, l, rfl⟩
    obtain ⟨X, rfl⟩ : ∃ X, fuel = X + 1 :=
      ⟨fuel - 1, by
        have h1 : 1 ≤ outerCost (g0 :: grest) := Nat.le_add_left 1 _
        omega⟩
    have hsegeq : (((g0 :: grest).map renderGroup).flatten : List String) =
        renderGroup g0 ++ ((grest.map renderGroup).flatten) := by
      simp
    have hseg2 : 2 ≤ ((((g0 :: grest).map renderGroup).flatten) : List String).length := by
      rw [hsegeq, List.length_append]
      have := renderGroup_len2 g0
      omega
    have hidxlt : P.length <
        ((P ++ (((g0 :: grest).map renderGroup).flatten)) : List String).length := by
      rw [List.length_append]
      omega
    have hidxne : ¬ (P.length =
        ((P ++ (((g0 :: grest).map renderGroup).flatten)) : List String).length - 1) := by
      rw [List.length_append]
      omega
    simp only [outerLoop]
    rw [if_pos hidxlt, if_neg hidxne]
    have hgC : groupsCost (g0 :: grest) ≤ X := by
      simp only [outerCost] at hfuel
      omega
    obtain ⟨m, hm1, hm2, hm3⟩ := forClasses_run schema SCHEME_TYPE_CLASSES g0 grest
      P f X hgC hok emptyline_no_marker
    have hm1' : 1 ≤ m := hm2 (List.any_eq_true.mp (hok g0 (List.mem_cons_self _ _)).1)
    rw [hm3]
    simp only []
    by_cases hme : m = (g0 :: grest).length
    · rw [if_pos hme]
      rw [hme, List.take_length]
      obtain ⟨Y, rfl⟩ : ∃ Y, X = Y + 1 :=
        ⟨X - 1, by
          have h1 : 1 ≤ groupsCost (g0 :: grest) := Nat.le_add_left 1 _
          omega⟩
      simp only [outerLoop]
      have hlt2 : ((P ++ (((g0 :: grest).map renderGroup).flatten)) :
          List String).length - 1 <
          ((P ++ (((g0 :: grest).map renderGroup).flatten)) : List String).length := by
        rw [List.length_append]
        omega
      rw [if_pos hlt2]
      simp
    · rw [if_neg hme]
      have hmlt : m < (g0 :: grest).length := lt_of_le_of_ne hm1 hme
      have hsplit : (P ++ (((g0 :: grest).map renderGroup).flatten) : List String) =
          (P ++ ((((g0 :: grest).take m).map renderGroup).flatten)) ++
            ((((g0 :: grest).drop m).map renderGroup).flatten) := by
        rw [List.append_assoc, ← List.flatten_append, ← List.map_append,
          List.take_append_drop]
      have hplen : P.length + ((((g0 :: grest).take m).map renderGroup).flatten).length =
          ((P ++ ((((g0 :: grest).take m).map renderGroup).flatten)) : List String).length := by
        simp
      rw [hsplit, hplen]
      have hres := ih ((g0 :: grest).drop m)
        (P ++ ((((g0 :: grest).take m).map renderGroup).flatten))
        (((g0 :: grest).take m).foldl (addGroup schema) f) X
        (by
          have h1 : ((g0 :: grest).drop m).length = (g0 :: grest).length - m := by
            simp
          rw [h1]
          simp only [List.length_cons] at hn hmlt ⊢
          omega)
        (by
          intro hdrop
          have h1 : ((g0 :: grest).drop m).length = 0 := by rw [hdrop]; rfl
          simp only [List.length_drop] at h1
          omega)
        (by
          have h1 := groupsCost_drop_le (g0 :: grest) m
          have h2 : ((g0 :: grest).drop m).length = (g0 :: grest).length - m := by
            simp
          simp only [outerCost] at hfuel ⊢
          omega)
        (fun g hg => hok g (List.mem_of_mem_drop hg))
      rw [hres]
      have hfold : ((g0 :: grest).drop m).foldl (addGroup schema)
          (((g0 :: grest).take m).foldl (addGroup schema) f) =
          (g0 :: grest).foldl (addGroup schema) f := by
        rw [← List.foldl_append, List.take_append_drop]
      rw [hfold]

theorem parseLines_run (hline : String) (gs : List GroupBlock) (fuel : Nat)
    (hwf : wfInput hline gs) (hfuel : outerCost gs ≤ fuel) :
    parseLines fuel (renderInput hline gs) =
      .ok (buildHierarchy (pySplitOn ';' hline) gs) := by
  obtain ⟨hne, hok⟩ := hwf
  obtain ⟨g0, grest, rfl⟩ : ∃ g0 grest, gs = g0 :: grest := by
    cases gs with
    | nil => exact absurd rfl hne
    | cons g l => exact ⟨g, l, rfl⟩
  have h2 : (renderInput hline (g0 :: grest)).get? 2 = some g0.header := by
    show (((((g0 :: grest).map renderGroup).flatten)) : List String).get? 0 = _
    simp [renderGroup]
  have hrun := outerLoop_run (pySplitOn ';' hline) (g0 :: grest).length (g0 :: grest)
    [hline, EMPTY_LINE] [] fuel (le_refl _) hne hfuel hok
  show (match (renderInput hline (g0 :: grest)).get? 1 with
    | none => (.err .indexError : PRes Hierarchy)
    | some _ =>
      match (renderInput hline (g0 :: grest)).get? 2 with
      | none => .err .indexError
      | some _ =>
        outerLoop (pySplitOn ';' ((renderInput hline (g0 :: grest)).headI)) fuel
          ⟨renderInput hline (g0 :: grest), 2, []⟩) = _
  rw [h2]
  show outerLoop (pySplitOn ';' hline) fuel ⟨renderInput hline (g0 :: grest), 2, []⟩ = _
  have hshape : renderInput hline (g0 :: grest) =
      [hline, EMPTY_LINE] ++ (((g0 :: grest).map renderGroup).flatten) := rfl
  rw [hshape]
  exact hrun

/-! ## Bucket contents of the built hierarchy -/

theorem lookup2_ensureType (H : Hierarchy) (t t' s' : String) :
    lookup2 (ensureType H t) t' s' = lookup2 H t' s' := by
  unfold lookup2 ensureType
  rw [dictGet_ensureKey]
  by_cases h : t' = t
  · subst h
    cases hdg : dictGet H t' with
    | none => simp [hdg, dictGet]
    | some d2 => simp [hdg]
  · rw [if_neg h]

theorem lookup3_ensureType (H : Hierarchy) (t t' s' h' : String) :
    lookup3 (ensureType H t) t' s' h' = lookup3 H t' s' h' := by
  unfold lookup3 ensureType
  rw [dictGet_ensureKey]
  by_cases h : t' = t
  · subst h
    cases hdg : dictGet H t' with
    | none => simp [hdg, dictGet]
    | some d2 => simp [hdg]
  · rw [if_neg h]

theorem lookup3_ensureSub (H : Hierarchy) (t s t' s' h' : String) :
    lookup3 (ensureSub H t s) t' s' h' = lookup3 H t' s' h' := by
  unfold lookup3 ensureSub
  by_cases h : t' = t
  · subst h
    rw [dictGet_dictModify_self]
    cases hdg : dictGet H t' with
    | none => rfl
    | some d2 =>
      simp only [Option.map_some']
      rw [dictGet_ensureKey]
      by_cases hs : s' = s
      · subst hs
        cases hdg2 : dictGet d2 s' with
        | none => simp [hdg2, dictGet]
        | some d3 => simp [hdg2]
      · rw [if_neg hs]
  · rw [dictGet_dictModify_other _ _ _ _ h]

theorem lookup2_ensured (H : Hierarchy) (t s : String) :
    lookup2 (ensureSub (ensureType H t) t s) t s =
      some ((dictGet ((dictGet H t).getD []) s).getD []) := by
  unfold lookup2 ensureSub
  have h1 : dictGet (ensureType H t) t = some ((dictGet H t).getD []) := by
    unfold ensureType
    rw [dictGet_ensureKey, if_pos rfl]
  rw [dictGet_dictModify_self, h1]
  simp only [Option.map_some']
  rw [dictGet_ensureKey, if_pos rfl]

theorem lookup3_ensureOrg_self (H : Hierarchy) (t s h : String)
    (d3 : List (String × List Fund)) (hts : lookup2 H t s = some d3) :
    lookup3 (ensureOrg H t s h) t s h = some ((dictGet d3 h).getD []) := by
  unfold lookup2 at hts
  unfold lookup3 ensureOrg
  cases hdg : dictGet H t with
  | none => rw [hdg] at hts; cases hts
  | some d2 =>
    rw [hdg] at hts
    simp only [] at hts
    rw [dictGet_dictModify_self, hdg]
    simp only [Option.map_some']
    rw [dictGet_dictModify_self, hts]
    simp only [Option.map_some']
    rw [dictGet_ensureKey, if_pos rfl]

theorem lookup3_ensureOrg_other (H : Hierarchy) (t s h t' s' h' : String)
    (hne : ¬ (t' = t ∧ s' = s ∧ h' = h)) :
    lookup3 (ensureOrg H t s h) t' s' h' = lookup3 H t' s' h' := by
  unfold lookup3 ensureOrg
  by_cases h1 : t' = t
  · subst h1
    rw [dictGet_dictModify_self]
    cases hdg : dictGet H t' with
    | none => rfl
    | some d2 =>
      simp only [Option.map_some']
      by_cases h2 : s' = s
      · subst h2
        rw [dictGet_dictModify_self]
        cases hdg2 : dictGet d2 s' with
        | none => rfl
        | some d3 =>
          simp only [Option.map_some']
          have h3 : ¬ (h' = h) := fun he => hne ⟨rfl, rfl, he⟩
          rw [dictGet_ensureKey, if_neg h3]
      · rw [dictGet_dictModify_other _ _ _ _ h2]
  · rw [dictGet_dictModify_other _ _ _ _ h1]

theorem lookup2_ensureOrg (H : Hierarchy) (t s h t' s' : String) :
    (lookup2 (ensureOrg H t s h) t' s').isSome = (lookup2 H t' s').isSome := by
  unfold lookup2 ensureOrg
  by_cases h1 : t' = t
  · subst h1
    rw [dictGet_dictModify_self]
    cases hdg : dictGet H t' with
    | none => rfl
    | some d2 =>
      simp only [Option.map_some']
      by_cases h2 : s' = s
      · subst h2
        rw [dictGet_dictModify_self]
        cases hdg2 : dictGet d2 s' <;> simp
      · rw [dictGet_dictModify_other _ _ _ _ h2]
  · rw [dictGet_dictModify_other _ _ _ _ h1]

theorem lookup3_appendFund (H : Hierarchy) (t s h t' s' h' : String) (fd : Fund) :
    lookup3 (appendFund H t s h fd) t' s' h' =
      if t' = t ∧ s' = s ∧ h' = h
      then (lookup3 H t s h).map (fun l => l ++ [fd])
      else lookup3 H t' s' h' := by
  unfold lookup3 appendFund
  by_cases h1 : t' = t
  · subst h1
    rw [dictGet_dictModify_self]
    cases hdg : dictGet H t' with
    | none =>
      by_cases h2 : s' = s <;> by_cases h3 : h' = h <;> simp [h2, h3, hdg]
    | some d2 =>
      simp only [Option.map_some']
      by_cases h2 : s' = s
      · subst h2
        rw [dictGet_dictModify_self]
        cases hdg2 : dictGet d2 s' with
        | none => by_cases h3 : h' = h <;> simp [h3, hdg, hdg2]
        | some d3 =>
          simp only [Option.map_some']
          by_cases h3 : h' = h
          · subst h3
            rw [dictGet_dictModify_self]
            simp [hdg, hdg2]
          · rw [dictGet_dictModify_other _ _ _ _ h3]
            simp [h3]
      · rw [dictGet_dictModify_other _ _ _ _ h2]
        simp [h2]
  · rw [dictGet_dictModify_other _ _ _ _ h1]
    simp [h1]

theorem lookup2_appendFund (H : Hierarchy) (t s h t' s' : String) (fd : Fund) :
    (lookup2 (appendFund H t s h fd) t' s').isSome = (lookup2 H t' s').isSome := by
  unfold lookup2 appendFund
  by_cases h1 : t' = t
  · subst h1
    rw [dictGet_dictModify_self]
    cases hdg : dictGet H t' with
    | none => rfl
    | some d2 =>
      simp only [Option.map_some']
      by_cases h2 : s' = s
      · subst h2
        rw [dictGet_dictModify_self]
        cases hdg2 : dictGet d2 s' <;> simp
      · rw [dictGet_dictModify_other _ _ _ _ h2]
  · rw [dictGet_dictModify_other _ _ _ _ h1]

theorem lookup3_appendFunds_self (fds : List Fund) :
    ∀ (H : Hierarchy) (t s h : String) (l : List Fund),
      lookup3 H t s h = some l →
      lookup3 (appendFunds H t s h fds) t s h = some (l ++ fds) := by
  induction fds with
  | nil => intro H t s h l hl; simpa using hl
  | cons fd fds' ih =>
    intro H t s h l hl
    rw [appendFunds_cons]
    have h1 : lookup3 (appendFund H t s h fd) t s h = some (l ++ [fd]) := by
      rw [lookup3_appendFund, if_pos ⟨rfl, rfl, rfl⟩, hl]
      rfl
    rw [ih _ _ _ _ _ h1]
    simp

theorem lookup3_appendFunds_other (fds : List Fund) :
    ∀ (H : Hierarchy) (t s h t' s' h' : String),
      ¬ (t' = t ∧ s' = s ∧ h' = h) →
      lookup3 (appendFunds H t s h fds) t' s' h' = lookup3 H t' s' h' := by
  induction fds with
  | nil => intro H t s h t' s' h' _; rfl
  | cons fd fds' ih =>
    intro H t s h t' s' h' hne
    rw [appendFunds_cons, ih _ _ _ _ _ _ _ hne, lookup3_appendFund, if_neg hne]

theorem lookup2_appendFunds (fds : List Fund) :
    ∀ (H : Hierarchy) (t s h t' s' : String),
      (lookup2 (appendFunds H t s h fds) t' s').isSome = (lookup2 H t' s').isSome := by
  induction fds with
  | nil => intro H t s h t' s'; rfl
  | cons fd fds' ih =>
    intro H t s h t' s'
    rw [appendFunds_cons, ih, lookup2_appendFund]

theorem orgContrib_nil (schema : List String) (h : String) :
    orgContrib schema [] h = [] := rfl

theorem orgContrib_cons_self (schema : List String) (o : OrgBlock)
    (orgs : List OrgBlock) (h : String) (ho : o.name = h) :
    orgContrib schema (o :: orgs) h =
      decodedRecords schema o.records ++ orgContrib schema orgs h := by
  simp [orgContrib, ho]

theorem orgContrib_cons_other (schema : List String) (o : OrgBlock)
    (orgs : List OrgBlock) (h : String) (ho : ¬ o.name = h) :
    orgContrib schema (o :: orgs) h = orgContrib schema orgs h := by
  simp [orgContrib, ho]

theorem orgAppeared_cons (orgs : List OrgBlock) (o : OrgBlock) (h : String) :
    orgAppeared (o :: orgs) h = (decide (o.name = h) || orgAppeared orgs h) := by
  simp [orgAppeared]

theorem lookup3_addOrg (schema : List String) (t s : String) (H : Hierarchy)
    (o : OrgBlock) (t' s' h' : String)
    (hts : (lookup2 H t s).isSome = true) :
    lookup3 (addOrg schema t s H o) t' s' h' =
      if t' = t ∧ s' = s ∧ h' = o.name
      then some (((lookup3 H t s o.name).getD []) ++ decodedRecords schema o.records)
      else lookup3 H t' s' h' := by
  obtain ⟨d3, hd3⟩ := Option.isSome_iff_exists.mp hts
  unfold addOrg
  by_cases hcond : t' = t ∧ s' = s ∧ h' = o.name
  · obtain ⟨e1, e2, e3⟩ := hcond
    subst e1; subst e2
    rw [if_pos ⟨rfl, rfl, e3⟩, e3]
    have h1 := lookup3_ensureOrg_self H t' s' o.name d3 hd3
    have h2 : lookup3 H t' s' o.name = dictGet d3 o.name := by
      unfold lookup3
      unfold lookup2 at hd3
      cases hdg : dictGet H t' with
      | none => rw [hdg] at hd3; cases hd3
      | some d2 =>
        rw [hdg] at hd3
        simp only [] at hd3
        simp only [hdg, hd3]
    rw [lookup3_appendFunds_self _ _ _ _ _ _ h1, h2]
  · rw [if_neg hcond]
    rw [lookup3_appendFunds_other _ _ _ _ _ _ _ _ hcond,
      lookup3_ensureOrg_other _ _ _ _ _ _ _ hcond]

theorem lookup2_addOrg (schema : List String) (t s : String) (H : Hierarchy)
    (o : OrgBlock) (t' s' : String) :
    (lookup2 (addOrg schema t s H o) t' s').isSome = (lookup2 H t' s').isSome := by
  unfold addOrg
  rw [lookup2_appendFunds, lookup2_ensureOrg]

theorem lookup3_foldl_addOrg (schema : List String) (t s : String)
    (orgs : List OrgBlock) :
    ∀ (H : Hierarchy) (t' s' h' : String),
      (lookup2 H t s).isSome = true →
      lookup3 (orgs.foldl (addOrg schema t s) H) t' s' h' =
        if t' = t ∧ s' = s then
          match lookup3 H t s h' with
          | some l => some (l ++ orgContrib schema orgs h')
          | none => if orgAppeared orgs h' then some (orgContrib schema orgs h')
                    else none
        else lookup3 H t' s' h' := by
  induction orgs with
  | nil =>
    intro H t' s' h' _
    simp only [List.foldl_nil, orgContrib_nil]
    by_cases hcond : t' = t ∧ s' = s
    · obtain ⟨e1, e2⟩ := hcond
      subst e1; subst e2
      rw [if_pos (show t' = t' ∧ s' = s' from ⟨rfl, rfl⟩)]
      cases hx : lookup3 H t' s' h' with
      | none => simp [orgAppeared]
      | some l => simp
    · rw [if_neg hcond]
  | cons o orest ih =>
    intro H t' s' h' hts
    simp only [List.foldl_cons]
    rw [ih (addOrg schema t s H o) t' s' h'
      (by rw [lookup2_addOrg]; exact hts)]
    by_cases hcond : t' = t ∧ s' = s
    · obtain ⟨e1, e2⟩ := hcond
      subst e1; subst e2
      rw [if_pos (show t' = t' ∧ s' = s' from ⟨rfl, rfl⟩),
        if_pos (show t' = t' ∧ s' = s' from ⟨rfl, rfl⟩)]
      by_cases hname : h' = o.name
      · have h1 : lookup3 (addOrg schema t' s' H o) t' s' h' =
            some (((lookup3 H t' s' h').getD []) ++ decodedRecords schema o.records) := by
          rw [lookup3_addOrg _ _ _ _ _ _ _ _ hts, if_pos ⟨rfl, rfl, hname⟩, hname]
        rw [h1, orgContrib_cons_self schema o orest h' hname.symm]
        cases hx : lookup3 H t' s' h' with
        | none =>
          simp only [hx, Option.getD_none, List.nil_append]
          rw [orgAppeared_cons]
          have hd : decide (o.name = h') = true := by simp [hname.symm]
          rw [hd]
          simp
        | some l =>
          simp only [hx, Option.getD_some]
          simp
      · have h1 : lookup3 (addOrg schema t' s' H o) t' s' h' = lookup3 H t' s' h' := by
          rw [lookup3_addOrg _ _ _ _ _ _ _ _ hts,
            if_neg (fun hand => hname hand.2.2)]
        rw [h1, orgContrib_cons_other schema o orest h'
          (fun (he : o.name = h') => hname he.symm)]
        cases hx : lookup3 H t' s' h' with
        | none =>
          rw [orgAppeared_cons]
          have hd : decide (o.name = h') = false := by
            simp
            exact fun (he : o.name = h') => hname he.symm
          rw [hd]
          simp
        | some l => rfl
    · rw [if_neg hcond, if_neg hcond]
      rw [lookup3_addOrg _ _ _ _ _ _ _ _ hts,
        if_neg (fun hand => hcond ⟨hand.1, hand.2.1⟩)]

theorem lookup3_addGroup (schema : List String) (H : Hierarchy) (g : GroupBlock)
    (t s h : String) :
    lookup3 (addGroup schema H g) t s h =
      if groupKeysOf g = (t, s) then
        match lookup3 H t s h with
        | some l => some (l ++ orgContrib schema g.orgs h)
        | none => if orgAppeared g.orgs h then some (orgContrib schema g.orgs h)
                  else none
      else lookup3 H t s h := by
  have hbase : lookup3 (addGroup schema H g) t s h =
      if t = (groupKeysOf g).1 ∧ s = (groupKeysOf g).2 then
        match lookup3 (ensureSub (ensureType H (groupKeysOf g).1)
            (groupKeysOf g).1 (groupKeysOf g).2) (groupKeysOf g).1 (groupKeysOf g).2 h with
        | some l => some (l ++ orgContrib schema g.orgs h)
        | none => if orgAppeared g.orgs h then some (orgContrib schema g.orgs h)
                  else none
      else lookup3 (ensureSub (ensureType H (groupKeysOf g).1)
        (groupKeysOf g).1 (groupKeysOf g).2) t s h := by
    unfold addGroup
    rw [lookup3_foldl_addOrg]
    rw [lookup2_ensured]
    rfl
  rw [hbase]
  have hl3 : ∀ t' s' h'', lookup3 (ensureSub (ensureType H (groupKeysOf g).1)
      (groupKeysOf g).1 (groupKeysOf g).2) t' s' h'' = lookup3 H t' s' h'' := by
    intro t' s' h''
    rw [lookup3_ensureSub, lookup3_ensureType]
  rw [hl3, hl3]
  by_cases hcond : groupKeysOf g = (t, s)
  · have h1 : t = (groupKeysOf g).1 ∧ s = (groupKeysOf g).2 := by
      rw [hcond]
      exact ⟨rfl, rfl⟩
    rw [if_pos h1, if_pos hcond]
    obtain ⟨e1, e2⟩ := h1
    rw [← e1, ← e2]
  · rw [if_neg hcond, if_neg (fun hand => hcond (by
      rw [Prod.ext_iff]
      exact ⟨hand.1.symm, hand.2.symm⟩))]

theorem groupContrib_cons_self (schema : List String) (g : GroupBlock)
    (gs : List GroupBlock) (t s h : String) (hk : groupKeysOf g = (t, s)) :
    groupContrib schema (g :: gs) t s h =
      orgContrib schema g.orgs h ++ groupContrib schema gs t s h := by
  simp [groupContrib, hk]

theorem groupContrib_cons_other (schema : List String) (g : GroupBlock)
    (gs : List GroupBlock) (t s h : String) (hk : ¬ groupKeysOf g = (t, s)) :
    groupContrib schema (g :: gs) t s h = groupContrib schema gs t s h := by
  simp [groupContrib, hk]

theorem orgContrib_empty_of_not_appeared (schema : List String)
    (orgs : List OrgBlock) (h : String) (hap : orgAppeared orgs h = false) :
    orgContrib schema orgs h = [] := by
  induction orgs with
  | nil => rfl
  | cons o rest ih =>
    rw [orgAppeared_cons] at hap
    have h1 : decide (o.name = h) = false := by
      cases hd : decide (o.name = h) with
      | false => rfl
      | true => rw [hd] at hap; simp at hap
    have h2 : orgAppeared rest h = false := by
      cases hd : orgAppeared rest h with
      | false => rfl
      | true => rw [hd] at hap; simp at hap
    rw [orgContrib_cons_other schema o rest h (by simpa using h1), ih h2]

theorem lookup3_foldl_addGroup (schema : List String) (gs : List GroupBlock) :
    ∀ (A : Hierarchy) (t s h : String),
      lookup3 (gs.foldl (addGroup schema) A) t s h =
        match lookup3 A t s h with
        | some l => some (l ++ groupContrib schema gs t s h)
        | none => if tripleAppeared gs t s h
                  then some (groupContrib schema gs t s h) else none := by
  induction gs with
  | nil =>
    intro A t s h
    cases hx : lookup3 A t s h with
    | none => simp [tripleAppeared, hx]
    | some l => simp [groupContrib, hx]
  | cons g grest ih =>
    intro A t s h
    simp only [List.foldl_cons]
    rw [ih (addGroup schema A g) t s h, lookup3_addGroup]
    have htriple : tripleAppeared (g :: grest) t s h =
        ((decide (groupKeysOf g = (t, s)) && orgAppeared g.orgs h) ||
          tripleAppeared grest t s h) := by
      simp [tripleAppeared]
    by_cases hk : groupKeysOf g = (t, s)
    · rw [if_pos hk, groupContrib_cons_self schema g grest t s h hk]
      cases hx : lookup3 A t s h with
      | some l =>
        simp only []
        rw [List.append_assoc]
      | none =>
        cases hap : orgAppeared g.orgs h with
        | true =>
          simp only [if_pos rfl]
          rw [htriple, hk]
          simp [hap]
        | false =>
          simp only [Bool.false_eq_true, if_false]
          rw [htriple, hk]
          simp only [decide_eq_true_eq, hap]
          rw [orgContrib_empty_of_not_appeared schema g.orgs h hap]
          simp
    · rw [if_neg hk, groupContrib_cons_other schema g grest t s h hk]
      rw [htriple]
      have h1 : decide (groupKeysOf g = (t, s)) = false := by
        simp [hk]
      rw [h1]
      simp

theorem lookup3_buildHierarchy (schema : List String) (gs : List GroupBlock)
    (t s h : String) :
    lookup3 (buildHierarchy schema gs) t s h = specBucket schema gs t s h := by
  unfold buildHierarchy specBucket
  rw [lookup3_foldl_addGroup]
  rfl

/-! ## Counting records in the built hierarchy -/

theorem dictGet_none_iff {α : Type} (d : List (String × α)) (k : String) :
    dictGet d k = none ↔ k ∉ d.map Prod.fst := by
  induction d with
  | nil => simp [dictGet]
  | cons p rest ih =>
    rw [List.map_cons, List.mem_cons]
    by_cases h : p.1 = k
    · rw [dictGet, if_pos h]
      simp [h]
    · rw [dictGet, if_neg h, ih]
      constructor
      · intro hn hor
        rcases hor with he | hmem
        · exact h he.symm
        · exact hn hmem
      · intro hn hmem
        exact hn (Or.inr hmem)

theorem dictGet_mem {α : Type} (d : List (String × α)) (k : String) (v : α)
    (h : dictGet d k = some v) : (k, v) ∈ d := by
  induction d with
  | nil => cases h
  | cons p rest ih =>
    by_cases hp : p.1 = k
    · rw [dictGet, if_pos hp] at h
      cases h
      have he : (k, p.2) = p := by rw [← hp]
      rw [he]
      exact List.mem_cons_self _ _
    · rw [dictGet, if_neg hp] at h
      exact List.mem_cons_of_mem _ (ih h)

theorem ensureKey_of_some {α : Type} (d : List (String × α)) (k : String) (v : α)
    (h : dictGet d k ≠ none) : ensureKey d k v = d := by
  unfold ensureKey dictMem
  cases hdg : dictGet d k with
  | none => exact absurd hdg h
  | some x => simp

theorem mem_ensureKey {α : Type} (d : List (String × α)) (k : String) (v : α)
    (p : String × α) (h : p ∈ ensureKey d k v) : p ∈ d ∨ p = (k, v) := by
  unfold ensureKey at h
  by_cases hm : dictMem d k
  · rw [if_pos hm] at h
    exact Or.inl h
  · rw [if_neg hm] at h
    rcases List.mem_append.mp h with h1 | h1
    · exact Or.inl h1
    · simp at h1
      exact Or.inr h1

theorem keys_ensureKey_nodup {α : Type} (d : List (String × α)) (k : String) (v : α)
    (h : (d.map Prod.fst).Nodup) : ((ensureKey d k v).map Prod.fst).Nodup := by
  unfold ensureKey dictMem
  cases hdg : dictGet d k with
  | some x => simpa using h
  | none =>
    simp only [Option.isSome_none, Bool.false_eq_true, if_false]
    rw [List.map_append]
    rw [List.nodup_append]
    refine ⟨h, by simp, ?_⟩
    intro a ha hb
    simp at hb
    subst hb
    exact (dictGet_none_iff d a).mp hdg ha

theorem keys_dictModify {α : Type} (d : List (String × α)) (k : String) (f : α → α) :
    (dictModify d k f).map Prod.fst = d.map Prod.fst := by
  induction d with
  | nil => rfl
  | cons p rest ih =>
    by_cases h : p.1 = k <;> simp [dictModify, h] <;>
      simpa [dictModify] using ih

theorem mem_dictModify {α : Type} (d : List (String × α)) (k : String) (f : α → α)
    (p : String × α) (h : p ∈ dictModify d k f) :
    ∃ q ∈ d, p = q ∨ p = (q.1, f q.2) := by
  unfold dictModify at h
  obtain ⟨q, hq, he⟩ := List.mem_map.mp h
  refine ⟨q, hq, ?_⟩
  by_cases hc : q.1 = k
  · rw [if_pos hc] at he
    exact Or.inr he.symm
  · rw [if_neg hc] at he
    exact Or.inl he.symm

theorem HierOk_ensureType (H : Hierarchy) (t : String) (h : HierOk H) :
    HierOk (ensureType H t) := by
  obtain ⟨h1, h2⟩ := h
  unfold ensureType
  refine ⟨keys_ensureKey_nodup H t [] h1, ?_⟩
  intro p hp
  rcases mem_ensureKey H t [] p hp with hm | hm
  · exact h2 p hm
  · subst hm
    exact ⟨by simp, by simp⟩

theorem HierOk_ensureSub (H : Hierarchy) (t s : String) (h : HierOk H) :
    HierOk (ensureSub H t s) := by
  obtain ⟨h1, h2⟩ := h
  unfold ensureSub
  refine ⟨by rw [keys_dictModify]; exact h1, ?_⟩
  intro p hp
  obtain ⟨q, hq, hor⟩ := mem_dictModify H t _ p hp
  obtain ⟨hq1, hq2⟩ := h2 q hq
  rcases hor with he | he
  · subst he; exact ⟨hq1, hq2⟩
  · subst he
    refine ⟨keys_ensureKey_nodup q.2 s [] hq1, ?_⟩
    intro r hr
    rcases mem_ensureKey q.2 s [] r hr with hm | hm
    · exact hq2 r hm
    · subst hm; simp

theorem HierOk_ensureOrg (H : Hierarchy) (t s hh : String) (h : HierOk H) :
    HierOk (ensureOrg H t s hh) := by
  obtain ⟨h1, h2⟩ := h
  unfold ensureOrg
  refine ⟨by rw [keys_dictModify]; exact h1, ?_⟩
  intro p hp
  obtain ⟨q, hq, hor⟩ := mem_dictModify H t _ p hp
  obtain ⟨hq1, hq2⟩ := h2 q hq
  rcases hor with he | he
  · subst he; exact ⟨hq1, hq2⟩
  · subst he
    refine ⟨by rw [keys_dictModify]; exact hq1, ?_⟩
    intro r hr
    simp only [] at hr
    obtain ⟨u, hu, hor2⟩ := mem_dictModify q.2 s _ r hr
    rcases hor2 with he2 | he2
    · rw [he2]; exact hq2 u hu
    · subst he2
      exact keys_ensureKey_nodup u.2 hh [] (hq2 u hu)

theorem HierOk_appendFund (H : Hierarchy) (t s hh : String) (fd : Fund)
    (h : HierOk H) : HierOk (appendFund H t s hh fd) := by
  obtain ⟨h1, h2⟩ := h
  unfold appendFund
  refine ⟨by rw [keys_dictModify]; exact h1, ?_⟩
  intro p hp
  obtain ⟨q, hq, hor⟩ := mem_dictModify H t _ p hp
  obtain ⟨hq1, hq2⟩ := h2 q hq
  rcases hor with he | he
  · subst he; exact ⟨hq1, hq2⟩
  · subst he
    refine ⟨by rw [keys_dictModify]; exact hq1, ?_⟩
    intro r hr
    simp only [] at hr
    obtain ⟨u, hu, hor2⟩ := mem_dictModify q.2 s _ r hr
    rcases hor2 with he2 | he2
    · rw [he2]; exact hq2 u hu
    · subst he2
      simp only []
      rw [keys_dictModify]
      exact hq2 u hu

theorem dictModify_of_get_none {α : Type} (d : List (String × α)) (k : String)
    (f : α → α) (h : dictGet d k = none) : dictModify d k f = d := by
  induction d with
  | nil => rfl
  | cons p rest ih =>
    by_cases hp : p.1 = k
    · rw [dictGet, if_pos hp] at h; cases h
    · rw [dictGet, if_neg hp] at h
      rw [show dictModify (p :: rest) k f = p :: dictModify rest k f from by
        simp [dictModify, hp]]
      rw [ih h]

theorem sum_cnt_dictModify_add {α : Type} (cnt : α → Nat) (d : List (String × α))
    (k : String) (f : α → α) (x : α)
    (hnod : (d.map Prod.fst).Nodup) (hget : dictGet d k = some x)
    (hf : cnt (f x) = cnt x + 1) :
    ((dictModify d k f).map (fun p => cnt p.2)).sum =
      (d.map (fun p => cnt p.2)).sum + 1 := by
  induction d with
  | nil => cases hget
  | cons p rest ih =>
    by_cases hp : p.1 = k
    · rw [dictGet, if_pos hp] at hget
      cases hget
      have hknotin : dictGet rest k = none := by
        rw [dictGet_none_iff]
        rw [List.map_cons, List.nodup_cons] at hnod
        rw [← hp]
        exact hnod.1
      rw [show dictModify (p :: rest) k f =
        (p.1, f p.2) :: dictModify rest k f from by simp [dictModify, hp]]
      rw [dictModify_of_get_none rest k f hknotin]
      simp [hf]
      omega
    · rw [dictGet, if_neg hp] at hget
      rw [List.map_cons, List.nodup_cons] at hnod
      rw [show dictModify (p :: rest) k f = p :: dictModify rest k f from by
        simp [dictModify, hp]]
      simp only [List.map_cons, List.sum_cons]
      rw [ih hnod.2 hget]
      omega

theorem sum_cnt_dictModify_eq {α : Type} (cnt : α → Nat) (d : List (String × α))
    (k : String) (f : α → α) (hf : ∀ a, cnt (f a) = cnt a) :
    ((dictModify d k f).map (fun p => cnt p.2)).sum =
      (d.map (fun p => cnt p.2)).sum := by
  induction d with
  | nil => rfl
  | cons p rest ih =>
    by_cases hp : p.1 = k
    · rw [show dictModify (p :: rest) k f =
        (p.1, f p.2) :: dictModify rest k f from by simp [dictModify, hp]]
      simp only [List.map_cons, List.sum_cons]
      rw [ih, hf]
    · rw [show dictModify (p :: rest) k f = p :: dictModify rest k f from by
        simp [dictModify, hp]]
      simp only [List.map_cons, List.sum_cons]
      rw [ih]

theorem sum_cnt_ensureKey {α : Type} (cnt : α → Nat) (d : List (String × α))
    (k : String) (v : α) (hv : cnt v = 0) :
    ((ensureKey d k v).map (fun p => cnt p.2)).sum =
      (d.map (fun p => cnt p.2)).sum := by
  unfold ensureKey
  by_cases hm : dictMem d k
  · rw [if_pos hm]
  · rw [if_neg hm]
    simp [hv]

theorem totalCount_def (H : Hierarchy) :
    totalCount H = (H.map (fun pt => cntSub pt.2)).sum := rfl

theorem totalCount_ensureType (H : Hierarchy) (t : String) :
    totalCount (ensureType H t) = totalCount H := by
  rw [totalCount_def, totalCount_def]
  exact sum_cnt_ensureKey cntSub H t [] rfl

theorem totalCount_ensureSub (H : Hierarchy) (t s : String) :
    totalCount (ensureSub H t s) = totalCount H := by
  rw [totalCount_def, totalCount_def]
  exact sum_cnt_dictModify_eq cntSub H t (fun d2 => ensureKey d2 s [])
    (fun d2 => sum_cnt_ensureKey cntOrg d2 s [] rfl)

theorem totalCount_ensureOrg (H : Hierarchy) (t s hh : String) :
    totalCount (ensureOrg H t s hh) = totalCount H := by
  rw [totalCount_def, totalCount_def]
  exact sum_cnt_dictModify_eq cntSub H t _ (fun d2 =>
    sum_cnt_dictModify_eq cntOrg d2 s _ (fun d3 =>
      sum_cnt_ensureKey List.length d3 hh [] rfl))

theorem totalCount_appendFund (H : Hierarchy) (t s hh : String) (fd : Fund)
    (l : List Fund) (hok : HierOk H) (hbk : lookup3 H t s hh = some l) :
    totalCount (appendFund H t s hh fd) = totalCount H + 1 := by
  unfold lookup3 at hbk
  cases hdg : dictGet H t with
  | none => rw [hdg] at hbk; cases hbk
  | some d2 =>
    rw [hdg] at hbk
    simp only [] at hbk
    cases hdg2 : dictGet d2 s with
    | none => rw [hdg2] at hbk; cases hbk
    | some d3 =>
      rw [hdg2] at hbk
      simp only [] at hbk
      obtain ⟨hnod1, hmem2⟩ := hok
      obtain ⟨hnod2, hmem3⟩ := hmem2 (t, d2) (dictGet_mem H t d2 hdg)
      have hnod3 := hmem3 (s, d3) (dictGet_mem d2 s d3 hdg2)
      rw [totalCount_def, totalCount_def]
      exact sum_cnt_dictModify_add cntSub H t _ d2 hnod1 hdg
        (sum_cnt_dictModify_add cntOrg d2 s _ d3 hnod2 hdg2
          (sum_cnt_dictModify_add List.length d3 hh _ l hnod3 hbk (by simp)))

theorem totalCount_appendFunds (fds : List Fund) :
    ∀ (H : Hierarchy) (t s hh : String) (l : List Fund),
      HierOk H → lookup3 H t s hh = some l →
      totalCount (appendFunds H t s hh fds) = totalCount H + fds.length ∧
        HierOk (appendFunds H t s hh fds) := by
  induction fds with
  | nil =>
    intro H t s hh l hok _
    refine ⟨?_, by rw [appendFunds_nil]; exact hok⟩
    rw [appendFunds_nil]
    simp
  | cons fd fds' ih =>
    intro H t s hh l hok hbk
    rw [appendFunds_cons]
    have hbk' : lookup3 (appendFund H t s hh fd) t s hh = some (l ++ [fd]) := by
      rw [lookup3_appendFund, if_pos ⟨rfl, rfl, rfl⟩, hbk]
      rfl
    obtain ⟨hc, hk⟩ := ih (appendFund H t s hh fd) t s hh (l ++ [fd])
      (HierOk_appendFund H t s hh fd hok) hbk'
    refine ⟨?_, hk⟩
    rw [hc, totalCount_appendFund H t s hh fd l hok hbk]
    simp only [List.length_cons]
    omega

theorem addOrg_count (schema : List String) (t s : String) (H : Hierarchy)
    (o : OrgBlock) (hok : HierOk H) (hts : (lookup2 H t s).isSome = true) :
    totalCount (addOrg schema t s H o) =
      totalCount H + (decodedRecords schema o.records).length ∧
      HierOk (addOrg schema t s H o) := by
  obtain ⟨d3, hd3⟩ := Option.isSome_iff_exists.mp hts
  have h1 := lookup3_ensureOrg_self H t s o.name d3 hd3
  obtain ⟨hc, hk⟩ := totalCount_appendFunds (decodedRecords schema o.records)
    (ensureOrg H t s o.name) t s o.name _ (HierOk_ensureOrg H t s o.name hok) h1
  unfold addOrg
  refine ⟨?_, hk⟩
  rw [hc, totalCount_ensureOrg]

theorem foldl_addOrg_count (schema : List String) (t s : String)
    (orgs : List OrgBlock) :
    ∀ (H : Hierarchy), HierOk H → (lookup2 H t s).isSome = true →
      totalCount (orgs.foldl (addOrg schema t s) H) =
        totalCount H +
          ((orgs.map (fun o => (decodedRecords schema o.records).length)).sum) ∧
      HierOk (orgs.foldl (addOrg schema t s) H) := by
  induction orgs with
  | nil => intro H hok _; exact ⟨by simp, hok⟩
  | cons o orest ih =>
    intro H hok hts
    simp only [List.foldl_cons]
    obtain ⟨hc1, hk1⟩ := addOrg_count schema t s H o hok hts
    obtain ⟨hc2, hk2⟩ := ih (addOrg schema t s H o) hk1
      (by rw [lookup2_addOrg]; exact hts)
    refine ⟨?_, hk2⟩
    rw [hc2, hc1]
    simp only [List.map_cons, List.sum_cons]
    omega

theorem addGroup_count (schema : List String) (H : Hierarchy) (g : GroupBlock)
    (hok : HierOk H) :
    totalCount (addGroup schema H g) =
      totalCount H +
        ((g.orgs.map (fun o => (decodedRecords schema o.records).length)).sum) ∧
      HierOk (addGroup schema H g) := by
  have hok1 : HierOk (ensureSub (ensureType H (groupKeysOf g).1)
      (groupKeysOf g).1 (groupKeysOf g).2) :=
    HierOk_ensureSub _ _ _ (HierOk_ensureType H _ hok)
  have hts : (lookup2 (ensureSub (ensureType H (groupKeysOf g).1)
      (groupKeysOf g).1 (groupKeysOf g).2) (groupKeysOf g).1 (groupKeysOf g).2).isSome
      = true := by
    rw [lookup2_ensured]
    rfl
  obtain ⟨hc, hk⟩ := foldl_addOrg_count schema (groupKeysOf g).1 (groupKeysOf g).2
    g.orgs _ hok1 hts
  unfold addGroup
  refine ⟨?_, hk⟩
  rw [hc, totalCount_ensureSub, totalCount_ensureType]

theorem buildHierarchy_count (schema : List String) (gs : List GroupBlock) :
    totalCount (buildHierarchy schema gs) =
      (gs.map (fun g =>
        (g.orgs.map (fun o => (decodedRecords schema o.records).length)).sum)).sum := by
  have main : ∀ (gs' : List GroupBlock) (A : Hierarchy), HierOk A →
      totalCount (gs'.foldl (addGroup schema) A) =
        totalCount A + (gs'.map (fun g =>
          (g.orgs.map (fun o => (decodedRecords schema o.records).length)).sum)).sum ∧
      HierOk (gs'.foldl (addGroup schema) A) := by
    intro gs'
    induction gs' with
    | nil => intro A hok; exact ⟨by simp, hok⟩
    | cons g grest ih =>
      intro A hok
      simp only [List.foldl_cons]
      obtain ⟨hc1, hk1⟩ := addGroup_count schema A g hok
      obtain ⟨hc2, hk2⟩ := ih (addGroup schema A g) hk1
      refine ⟨?_, hk2⟩
      rw [hc2, hc1]
      simp only [List.map_cons, List.sum_cons]
      omega
  have h0 : HierOk ([] : Hierarchy) := ⟨by simp, by simp⟩
  obtain ⟨hc, _⟩ := main gs [] h0
  unfold buildHierarchy
  rw [hc]
  simp [totalCount]

theorem decodedRecords_length (schema : List String) (rs : List String)
    (hok : ∀ r ∈ rs, recordOk schema r) :
    (decodedRecords schema rs).length = (rs.filter (fun r => r ≠ "")).length := by
  induction rs with
  | nil => rfl
  | cons r rest ih =>
    have ih' := ih (fun r' hr' => hok r' (List.mem_cons_of_mem _ hr'))
    by_cases hre : r = ""
    · subst hre
      rw [decodedRecords_cons_empty]
      rw [ih']
      simp
    · obtain ⟨fd, hfd⟩ := recordOk_decode (hok r (List.mem_cons_self _ _)) hre
      rw [decodedRecords_cons schema r rest fd hre hfd]
      simp only [List.length_cons]
      rw [ih']
      rw [List.filter_cons_of_pos (by simp [hre])]
      rfl

/-- C3: for every well-formed input (header line plus group blocks, each
block a group header with organisation blocks of decodable record
lines), the parse succeeds and the sum of the Record-list lengths over
all (category, sub-category, organisation) leaves of the returned
hierarchy equals the number of non-blank data lines of the input. -/
theorem C3_theorem (hline : String) (gs : List GroupBlock) (fuel : Nat)
    (hwf : wfInput hline gs) (hfuel : outerCost gs ≤ fuel) :
    ∃ H, parseLines fuel (renderInput hline gs) = .ok H ∧
      totalCount H = dataLineCount gs := by
  refine ⟨buildHierarchy (pySplitOn ';' hline) gs,
    parseLines_run hline gs fuel hwf hfuel, ?_⟩
  rw [buildHierarchy_count]
  unfold dataLineCount
  refine congrArg List.sum (List.map_congr_left ?_)
  intro g hg
  refine congrArg List.sum (List.map_congr_left ?_)
  intro o ho
  exact decodedRecords_length _ _ (((hwf.2 g hg).2.2.2) o ho).2

/-- C3 (witness): the canonical header with one group block holding two
decodable data lines and one interior empty line parses successfully,
and the hierarchy stores exactly two records. -/
theorem C3_witness :
    (wfInput canonicalHeader c3Blocks ∧ outerCost c3Blocks ≤ 32) ∧
    ∃ H, parseLines 32 (renderInput canonicalHeader c3Blocks) = .ok H ∧
      totalCount H = dataLineCount c3Blocks :=
  ⟨⟨by decide, by decide⟩,
    C3_theorem canonicalHeader c3Blocks 32 (by decide) (by decide)⟩

/-- C4: for every well-formed input, the parse succeeds and every
(category, sub-category, organisation) triple's bucket is exactly the
spec's predicted bucket: present if and only if the triple appears in
some block, and holding the concatenation, in file order, of the decoded
records of every occurrence of the triple — so keys are created on first
sight, reused on later sight, and earlier records are never overwritten. -/
theorem C4_theorem (hline : String) (gs : List GroupBlock) (fuel : Nat)
    (hwf : wfInput hline gs) (hfuel : outerCost gs ≤ fuel) :
    ∃ H, parseLines fuel (renderInput hline gs) = .ok H ∧
      ∀ t s h, lookup3 H t s h = specBucket (pySplitOn ';' hline) gs t s h :=
  ⟨buildHierarchy (pySplitOn ';' hline) gs,
    parseLines_run hline gs fuel hwf hfuel,
    fun t s h => lookup3_buildHierarchy (pySplitOn ';' hline) gs t s h⟩

/-- C4 (witness): an input in which the triple (Open Ended Schemes,
Liquid Fund, Example Fund House) appears in blocks 0 and 2, separated by
a different group block: the parse succeeds and every triple's bucket
matches the spec's accumulation-in-file-order prediction. -/
theorem C4_witness :
    (wfInput canonicalHeader c4Blocks ∧ outerCost c4Blocks ≤ 32) ∧
    ∃ H, parseLines 32 (renderInput canonicalHeader c4Blocks) = .ok H ∧
      ∀ t s h, lookup3 H t s h =
        specBucket (pySplitOn ';' canonicalHeader) c4Blocks t s h :=
  ⟨⟨by decide, by decide⟩,
    C4_theorem canonicalHeader c4Blocks 32 (by decide) (by decide)⟩

end AmfiNav
